import Mathlib

/-!
Shallow embedding of the udbq query builder (src/udbq.py): the `where`
condition class, the `table` statement builder with its `render` algorithm,
the `ResultSet` cursor wrapper, and a small object-store model of the
copy-on-write discipline for derived statements.

Machine strings are Lean `String`s, bound parameter values are an explicit
`Val` universe, and the fallible constructors (the `TypeError` raised by
`where.render_clause` when both a textual condition and keyword arguments
are supplied, the `AttributeError` raised by `table.and_` with no existing
condition) return `Option`.
-/

namespace Udbq

/-- A bound parameter value (a Python object passed as a query parameter).
`vtup` embeds a nonempty Python tuple (this is how `table.render` passes a
raw-expression assignment tuple through to the value list of an INSERT,
src/udbq.py:245). -/
inductive Val where
  | vint (n : Int)
  | vstr (s : String)
  | vnull
  | vtup (head : Val) (rest : List Val)

/-- A value bound in a keyword-mapping condition, as dispatched by
`where.render_clause` (src/udbq.py:51-59): a tuple becomes an `IN` test,
`None` becomes `IS NULL`, anything else an equality test. -/
inductive KwVal where
  | tup (vs : List Val)
  | null
  | scalar (v : Val)

/-- A value stored in the assignment mapping of INSERT/UPDATE
(src/udbq.py:144-157): either a plain scalar, or a Python tuple
`(rawExpressionText, *extraBoundValues)` whose first element is the raw SQL
text used by the UPDATE branch of `table.render` (src/udbq.py:268-270). -/
inductive UpdVal where
  | scalar (v : Val)
  | expr (head : String) (extra : List Val)

/-- Number of `?` placeholder characters in a SQL string. -/
def countPH (s : String) : Nat :=
  s.data.countP (fun c => c == '?')

/-- Python `sep.join(parts)`: parts concatenated with `sep` between
consecutive parts. -/
def pyJoin (sep : String) : List String → String
  | [] => ""
  | [a] => a
  | a :: rest => a ++ sep ++ pyJoin sep rest

/-- Python `" ?" * n`: the placeholder tail appended for `n` positional
values (src/udbq.py:47). -/
def phRep : Nat → String
  | 0 => ""
  | n + 1 => " ?" ++ phRep n

/-- The keyword branch of `where.render_clause` (src/udbq.py:50-60): one
rendered key fragment per mapping entry, in iteration order, with the
collected output values. -/
def renderKwargs : List (String × KwVal) → List String × List Val
  | [] => ([], [])
  | (k, .tup vs) :: rest =>
    ((k ++ " IN (" ++ pyJoin ", " (List.replicate vs.length "?") ++ ")") ::
       (renderKwargs rest).1,
     vs ++ (renderKwargs rest).2)
  | (k, .null) :: rest =>
    ((k ++ " IS NULL") :: (renderKwargs rest).1, (renderKwargs rest).2)
  | (k, .scalar v) :: rest =>
    ((k ++ "=?") :: (renderKwargs rest).1, v :: (renderKwargs rest).2)

/-- `where.render_clause` (src/udbq.py:41-61).  Returns `none` for the
`TypeError` raised when both a textual condition and keyword arguments are
given.  In the textual branch the string `" ?" * len(vals)` is appended to
the caller's text; in the keyword branch the key fragments are joined with
`" AND "` (the positional values are ignored there, as in the source). -/
def Where.render_clause (cond : Option String) (vals : List Val)
    (kwargs : List (String × KwVal)) : Option (String × List Val) :=
  if cond.isSome && !kwargs.isEmpty then
    none
  else
    match cond with
    | some c => some (c ++ phRep vals.length, vals)
    | none =>
      let p := renderKwargs kwargs
      some (pyJoin " AND " p.1, p.2)

/-- The `where` condition object (class `where`, src/udbq.py:40): a rendered
boolean expression together with its ordered bound values. -/
structure Where where
  cond : String
  vals : List Val

/-- `where.__init__` (src/udbq.py:63-64). -/
def Where.init (cond : Option String) (vals : List Val)
    (kwargs : List (String × KwVal)) : Option Where :=
  (Where.render_clause cond vals kwargs).map fun p => ⟨p.1, p.2⟩

/-- The argument of `where._connect` (src/udbq.py:66): either another
condition object (`isinstance(cond, where)`) or a textual/keyword fragment;
in the object case the source ignores any extra positional or keyword
arguments. -/
inductive WhereArg where
  | sub (w : Where)
  | frag (cond : Option String) (vals : List Val) (kwargs : List (String × KwVal))

/-- `where._connect` (src/udbq.py:66-74): a condition argument is appended
parenthesized; a fragment is rendered like construction and appended
unparenthesized; the new values are appended in order. -/
def Where.connect (self : Where) (op : String) (arg : WhereArg) : Option Where :=
  match arg with
  | .sub w => some ⟨self.cond ++ " " ++ op ++ " (" ++ w.cond ++ ")", self.vals ++ w.vals⟩
  | .frag c vs kw =>
    (Where.render_clause c vs kw).map fun p =>
      ⟨self.cond ++ " " ++ op ++ " " ++ p.1, self.vals ++ p.2⟩

/-- `where.and_` (src/udbq.py:76-77). -/
def Where.and_ (self : Where) (arg : WhereArg) : Option Where :=
  self.connect "AND" arg

/-- `where.or_` (src/udbq.py:79-80). -/
def Where.or_ (self : Where) (arg : WhereArg) : Option Where :=
  self.connect "OR" arg

/-- The operation kind held in `table.op`.  The source stores one of the
five strings set by `select`/`insert`/`replace`/`update`/`delete`
(src/udbq.py:92,135,145,150,155,160); the closed enumeration mirrors
exactly those values, `Op.str` recovering the stored string. -/
inductive Op where
  | SELECT
  | INSERT
  | INSERT_OR_REPLACE
  | UPDATE
  | DELETE
deriving DecidableEq

/-- The string stored in `table.op` for each operation kind. -/
def Op.str : Op → String
  | .SELECT => "SELECT"
  | .INSERT => "INSERT"
  | .INSERT_OR_REPLACE => "INSERT OR REPLACE"
  | .UPDATE => "UPDATE"
  | .DELETE => "DELETE"

/-- `self.op.startswith("INSERT")`, the dispatch used by `table.render`
(src/udbq.py:242): of the five strings `Op.str` can produce, exactly
`"INSERT"` and `"INSERT OR REPLACE"` start with `"INSERT"`. -/
def Op.isInsert : Op → Bool
  | .INSERT => true
  | .INSERT_OR_REPLACE => true
  | _ => false

/-- The `table` statement builder (class `table`, src/udbq.py:83), fields in
source attribute order (src/udbq.py:84-101 plus the `updates` mapping set by
`insert`/`replace`/`update`).  A column entry is either plain text or an
embedded sub-select statement (`isinstance(c, table)`, src/udbq.py:251); a
CTE entry is an alias paired with a sub-statement.  The initial column
attribute is the string `"*"`, over which `render` iterates, yielding the
single fragment `"*"`; it is therefore embedded as the one-element list
`[Sum.inl "*"]`.  The `row_type` attribute is not modelled: it never
influences rendering. -/
inductive table where
  | mk (pristine : Bool) (tables : List String) (op : Op)
       (cols : List (String ⊕ table))
       (updates : List (String × UpdVal))
       (cond : Option Where)
       (order_by : String) (group_by : String)
       (having : Option Where)
       (limit : String) (offset : String)
       (withs : List (String × table))
       (al : Option String)

namespace table

def pristine : table → Bool
  | .mk pr _ _ _ _ _ _ _ _ _ _ _ _ => pr

def tables : table → List String
  | .mk _ t _ _ _ _ _ _ _ _ _ _ _ => t

def op : table → Op
  | .mk _ _ o _ _ _ _ _ _ _ _ _ _ => o

def cols : table → List (String ⊕ table)
  | .mk _ _ _ c _ _ _ _ _ _ _ _ _ => c

def updates : table → List (String × UpdVal)
  | .mk _ _ _ _ u _ _ _ _ _ _ _ _ => u

def cond : table → Option Where
  | .mk _ _ _ _ _ c _ _ _ _ _ _ _ => c

def _order_by : table → String
  | .mk _ _ _ _ _ _ o _ _ _ _ _ _ => o

def _group_by : table → String
  | .mk _ _ _ _ _ _ _ g _ _ _ _ _ => g

def _having : table → Option Where
  | .mk _ _ _ _ _ _ _ _ h _ _ _ _ => h

def _limit : table → String
  | .mk _ _ _ _ _ _ _ _ _ l _ _ _ => l

def _offset : table → String
  | .mk _ _ _ _ _ _ _ _ _ _ o _ _ => o

def withs : table → List (String × table)
  | .mk _ _ _ _ _ _ _ _ _ _ _ w _ => w

def aliasv : table → Option String
  | .mk _ _ _ _ _ _ _ _ _ _ _ _ a => a

/-- `"%s" % c.alias` as used for a sub-select column (src/udbq.py:253):
Python formats the `None` default as the string `"None"`. -/
def aliasStr (s : table) : String :=
  s.aliasv.getD "None"

def setPristine : table → Bool → table
  | .mk _ t o c u cd ob gb hv l f w a, pr => .mk pr t o c u cd ob gb hv l f w a

def setOp : table → Op → table
  | .mk pr t _ c u cd ob gb hv l f w a, o => .mk pr t o c u cd ob gb hv l f w a

def setCols : table → List (String ⊕ table) → table
  | .mk pr t o _ u cd ob gb hv l f w a, c => .mk pr t o c u cd ob gb hv l f w a

def setUpdates : table → List (String × UpdVal) → table
  | .mk pr t o c _ cd ob gb hv l f w a, u => .mk pr t o c u cd ob gb hv l f w a

def setCond : table → Option Where → table
  | .mk pr t o c u _ ob gb hv l f w a, cd => .mk pr t o c u cd ob gb hv l f w a

def setOrder : table → String → table
  | .mk pr t o c u cd _ gb hv l f w a, ob => .mk pr t o c u cd ob gb hv l f w a

def setGroup : table → String → table
  | .mk pr t o c u cd ob _ hv l f w a, gb => .mk pr t o c u cd ob gb hv l f w a

def setHaving : table → Option Where → table
  | .mk pr t o c u cd ob gb _ l f w a, hv => .mk pr t o c u cd ob gb hv l f w a

def setLimit : table → String → table
  | .mk pr t o c u cd ob gb hv _ f w a, l => .mk pr t o c u cd ob gb hv l f w a

def setOffset : table → String → table
  | .mk pr t o c u cd ob gb hv l _ w a, f => .mk pr t o c u cd ob gb hv l f w a

def setWiths : table → List (String × table) → table
  | .mk pr t o c u cd ob gb hv l f _ a, w => .mk pr t o c u cd ob gb hv l f w a

def setAlias : table → Option String → table
  | .mk pr t o c u cd ob gb hv l f w _, a => .mk pr t o c u cd ob gb hv l f w a

/-- `table.__init__` (src/udbq.py:84-101). -/
def init (tbs : List String) : table :=
  .mk true tbs .SELECT [Sum.inl "*"] [] none "" "" none "" "" [] none

/-- `table.copy` (src/udbq.py:107-108): `copy.deepcopy(self)`; on pure
values a deep copy is the value itself (the aliasing consequences of the
copy are modelled separately by the object-store layer below). -/
def copy (s : table) : table := s

/-- `table.clone_if` (src/udbq.py:110-114). -/
def clone_if (s : table) : table :=
  if s.pristine then s.copy.setPristine false else s

/-- `table.with_` (src/udbq.py:103-105): registers a CTE, no copy. -/
def with_ (s : table) (al : String) (q : table) : table :=
  s.setWiths (s.withs ++ [(al, q)])

/-- `table.select` (src/udbq.py:133-139): copy-on-write, defaulting the
column list to `"*"`. -/
def select (s0 : table) (cs : List (String ⊕ table)) : table :=
  let s := s0.clone_if
  (s.setOp .SELECT).setCols (if cs.isEmpty then [Sum.inl "*"] else cs)

/-- `table.insert` (src/udbq.py:144-147): sets the mode and assignment
mapping in place (no copy). -/
def insert (s : table) (kw : List (String × UpdVal)) : table :=
  (s.setOp .INSERT).setUpdates kw

/-- `table.replace` (src/udbq.py:149-152). -/
def replace (s : table) (kw : List (String × UpdVal)) : table :=
  (s.setOp .INSERT_OR_REPLACE).setUpdates kw

/-- `table.update` (src/udbq.py:154-157). -/
def update (s : table) (kw : List (String × UpdVal)) : table :=
  (s.setOp .UPDATE).setUpdates kw

/-- `table.delete` (src/udbq.py:159-161). -/
def delete (s : table) : table :=
  s.setOp .DELETE

/-- `table.where` (src/udbq.py:163-169): copy-on-write; the first call
creates the condition, later calls AND-combine a new fragment into it. -/
def where_ (s0 : table) (c : Option String) (vs : List Val)
    (kw : List (String × KwVal)) : Option table :=
  let s := s0.clone_if
  match s.cond with
  | none => (Where.init c vs kw).map fun w => s.setCond (some w)
  | some w => (w.and_ (.frag c vs kw)).map fun w2 => s.setCond (some w2)

/-- `table.having` (src/udbq.py:171-177). -/
def having (s0 : table) (c : Option String) (vs : List Val)
    (kw : List (String × KwVal)) : Option table :=
  let s := s0.clone_if
  match s._having with
  | none => (Where.init c vs kw).map fun w => s.setHaving (some w)
  | some w => (w.and_ (.frag c vs kw)).map fun w2 => s.setHaving (some w2)

/-- `table.and_` (src/udbq.py:179-181): delegates to the existing
condition, in place (no copy); with no condition the source dereferences
`None` (`AttributeError`), modelled as `none`. -/
def and_ (s : table) (arg : WhereArg) : Option table :=
  match s.cond with
  | none => none
  | some w => (w.and_ arg).map fun w2 => s.setCond (some w2)

/-- `table.or_` (src/udbq.py:183-185). -/
def or_ (s : table) (arg : WhereArg) : Option table :=
  match s.cond with
  | none => none
  | some w => (w.or_ arg).map fun w2 => s.setCond (some w2)

/-- `table.group_by` (src/udbq.py:187-190). -/
def group_by (s0 : table) (cs : List String) : table :=
  s0.clone_if.setGroup (" GROUP BY " ++ pyJoin ", " cs)

/-- `table.order_by` (src/udbq.py:192-195). -/
def order_by (s0 : table) (cs : List String) : table :=
  s0.clone_if.setOrder (" ORDER BY " ++ pyJoin ", " cs)

/-- `table.limit` (src/udbq.py:197-200): `" LIMIT %d" % n` formats the
bound as a decimal literal directly into the clause text. -/
def limit (s0 : table) (n : Int) : table :=
  s0.clone_if.setLimit (" LIMIT " ++ toString n)

/-- `table.offset` (src/udbq.py:202-205). -/
def offset (s0 : table) (n : Int) : table :=
  s0.clone_if.setOffset (" OFFSET " ++ toString n)

/-- `table.as_` (src/udbq.py:207-209). -/
def as_ (s : table) (al : String) : table :=
  s.setAlias (some al)

end table

/-- The single value an INSERT passes to the driver for one assignment
(src/udbq.py:245, `vals = tuple(self.updates.values())`): a scalar is
passed through; a raw-expression tuple is passed whole, as the tuple. -/
def insVal : UpdVal → Val
  | .scalar v => v
  | .expr h ex => .vtup (.vstr h) ex

/-- One ` k=?` / ` k=<raw>` fragment of the UPDATE SET list
(src/udbq.py:265-274). -/
def updPart : String × UpdVal → String × List Val
  | (k, .scalar v) => (" " ++ k ++ "=?", [v])
  | (k, .expr h ex) => (" " ++ k ++ "=" ++ h, ex)

/-- The SET list of an UPDATE (src/udbq.py:263-274): fragments joined by
`","` (each fragment carries its own leading space), values in assignment
order. -/
def renderUpdates (ups : List (String × UpdVal)) : String × List Val :=
  (pyJoin "," (ups.map fun u => (updPart u).1),
   (ups.map fun u => (updPart u).2).flatten)

/-- The `WITH` prefix built from the already-rendered CTE sub-statements
(src/udbq.py:226-235): each entry contributes `"<alias> AS (<sql>) "`, the
entries separated by `", "`, the values concatenated in registration
order. -/
def renderWiths (wrs : List (String × String × List Val)) : String × List Val :=
  if wrs.isEmpty then ("", [])
  else
    ("WITH " ++ pyJoin ", " (wrs.map fun p => p.1 ++ " AS (" ++ p.2.1 ++ ") "),
     (wrs.map fun p => p.2.2).flatten)

/-- The trailing WHERE / GROUP BY / HAVING / ORDER BY / LIMIT / OFFSET
clauses appended in the fixed source order (src/udbq.py:277-286). -/
def renderTail (cond : Option Where) (grpB : String) (hav : Option Where)
    (ordB lim off : String) (p : String × List Val) : String × List Val :=
  let p1 : String × List Val :=
    match cond with
    | some cd => (p.1 ++ " WHERE " ++ cd.cond, p.2 ++ cd.vals)
    | none => p
  let s4 := p1.1 ++ grpB
  let p2 : String × List Val :=
    match hav with
    | some cd => (s4 ++ " HAVING " ++ cd.cond, p1.2 ++ cd.vals)
    | none => (s4, p1.2)
  (p2.1 ++ ordB ++ lim ++ off, p2.2)

/-- The pure body of `table.render` (src/udbq.py:223-287) once the CTE
sub-statements (`wrs`) and the SELECT column entries (`crs`) have been
rendered. Note the INSERT branch (src/udbq.py:242-245): it keeps the `WITH`
text already emitted but *replaces* the accumulated value list with the
assignment values. -/
def renderPure (tbs : List String) (op : Op) (crs : List (String × List Val))
    (ups : List (String × UpdVal)) (cond : Option Where) (grpB : String)
    (hav : Option Where) (ordB lim off : String)
    (wrs : List (String × String × List Val)) : String × List Val :=
  let pw := renderWiths wrs
  let tablesS := pyJoin ", " tbs ++ " "
  let sql1 := (if pw.1.isEmpty then pw.1 else pw.1 ++ " ") ++ op.str ++ " "
  match op with
  | .INSERT | .INSERT_OR_REPLACE =>
    (sql1 ++ " INTO " ++ tablesS ++ "(" ++ pyJoin ", " (ups.map fun u => u.1)
       ++ ") VALUES (" ++ pyJoin ", " (List.replicate ups.length "?") ++ ")",
     ups.map fun u => insVal u.2)
  | .SELECT =>
    renderTail cond grpB hav ordB lim off
      (sql1 ++ pyJoin ", " (crs.map fun c => c.1) ++ " "
         ++ (if tbs.isEmpty then "" else "FROM " ++ tablesS),
       pw.2 ++ (crs.map fun c => c.2).flatten)
  | .DELETE =>
    renderTail cond grpB hav ordB lim off
      (sql1 ++ (if tbs.isEmpty then "" else "FROM " ++ tablesS), pw.2)
  | .UPDATE =>
    let pu := renderUpdates ups
    renderTail cond grpB hav ordB lim off
      (sql1 ++ tablesS ++ " SET" ++ pu.1, pw.2 ++ pu.2)

/-- `table.render` (src/udbq.py:223-287), with an explicit fuel bound on
the recursion depth through CTE sub-statements and sub-select columns (the
source recursion always terminates because the statement value is finite;
`render_total` below shows some fuel always suffices, and `render_mono`
that the result does not depend on which sufficient fuel is used).  Column
entries are rendered only in SELECT mode, as in the source. -/
def table.render : Nat → table → Option (String × List Val)
  | 0, _ => none
  | f + 1, .mk _ tbs op cs ups cond ob gb hav lim off ws _ => do
    let wrs ← ws.mapM fun p => (table.render f p.2).map fun r => (p.1, r)
    let crs ← if op = .SELECT then
        cs.mapM fun c =>
          match c with
          | Sum.inl s => some (s, ([] : List Val))
          | Sum.inr sub => (table.render f sub).map fun r =>
              ("(" ++ r.1 ++ ") AS " ++ sub.aliasStr, r.2)
      else some []
    some (renderPure tbs op crs ups cond gb hav ob lim off wrs)

/-- `s` renders to `r`: some fuel suffices.  By `render_mono` (below) the
result is unique, so this is the graph of the source's `table.render`. -/
def table.Renders (s : table) (r : String × List Val) : Prop :=
  ∃ f, table.render f s = some r

/-- `table.sql` (src/udbq.py:289-292): render, `assert not vals`, return
the text alone; the assertion failure on a non-empty value list is
`none`. -/
def table.sql (f : Nat) (s : table) : Option String :=
  (table.render f s).bind fun p => if p.2.isEmpty then some p.1 else none

/-- `none`, or a condition whose text has exactly one `?` per bound
value. -/
def alignedOpt : Option Where → Bool
  | some w => countPH w.cond == w.vals.length
  | none => true

/-- An assignment value contributing well-matched placeholders: a scalar
always does; a raw expression must carry one `?` per extra bound value. -/
def updWf : UpdVal → Bool
  | .scalar _ => true
  | .expr h ex => countPH h == ex.length

/-- Well-formedness of the caller-supplied raw text in a statement (fuel
mirrors `table.render`): no stray `?` in table names, plain column text,
group/order/limit/offset clause text, aliases or assignment keys; every
held condition's text has exactly one `?` per bound value; a raw-expression
assignment's text has exactly one `?` per extra bound value; and an
INSERT-mode statement registers no CTEs (`table.render` discards their
values while keeping their placeholders, src/udbq.py:245). -/
def table.wf : Nat → table → Bool
  | 0, _ => false
  | f + 1, .mk _ tbs op cs ups cond ob gb hav lim off ws _ =>
    tbs.all (fun t => countPH t == 0) &&
    (alignedOpt cond &&
    (alignedOpt hav &&
    (countPH ob == 0 &&
    (countPH gb == 0 &&
    (countPH lim == 0 &&
    (countPH off == 0 &&
    (ups.all (fun u => countPH u.1 == 0 && updWf u.2) &&
    (cs.all (fun c =>
      match c with
      | Sum.inl s => countPH s == 0
      | Sum.inr sub => countPH sub.aliasStr == 0 && table.wf f sub) &&
    (ws.all (fun p => countPH p.1 == 0 && table.wf f p.2) &&
    (if op.isInsert then ws.isEmpty else true))))))))))

/-- Transform every bound value held in a condition, leaving the rendered
text untouched. -/
def Where.mapV (g : Val → Val) (w : Where) : Where :=
  ⟨w.cond, w.vals.map g⟩

/-- Transform the bound value(s) of one assignment, leaving any raw
expression text untouched. -/
def UpdVal.mapV (g : Val → Val) : UpdVal → UpdVal
  | .scalar v => .scalar (g v)
  | .expr h ex => .expr h (ex.map g)

/-- Transform every bound value stored anywhere in a statement (conditions,
assignments, sub-selects, CTE sub-statements), leaving all text fields
untouched; fuel mirrors `table.render`. -/
def table.mapVals : Nat → (Val → Val) → table → table
  | 0, _, s => s
  | f + 1, g, .mk pr tbs op cs ups cond ob gb hav lim off ws al =>
    .mk pr tbs op
      (cs.map fun c => match c with
        | Sum.inl s => Sum.inl s
        | Sum.inr sub => Sum.inr (table.mapVals f g sub))
      (ups.map fun u => (u.1, u.2.mapV g))
      (cond.map (Where.mapV g)) ob gb (hav.map (Where.mapV g)) lim off
      (ws.map fun p => (p.1, table.mapVals f g p.2)) al

/-- `s` with the trailing-clause state cleared: no condition, no HAVING, no
GROUP BY / ORDER BY / LIMIT / OFFSET text. -/
def table.clearTail (s : table) : table :=
  (((((s.setCond none).setHaving none).setGroup "").setOrder "").setLimit "").setOffset ""

/-- `s` with no registered CTEs. -/
def table.clearWiths (s : table) : table :=
  s.setWiths []

/-- One call of one of the six trailing-clause builder methods, with the
argument it was called with (the condition-bearing ones in either of their
two legal argument modes). -/
inductive ClauseOp where
  | whereT (t : String) (vs : List Val)
  | whereK (kw : List (String × KwVal))
  | havingT (t : String) (vs : List Val)
  | havingK (kw : List (String × KwVal))
  | groupC (cs : List String)
  | orderC (cs : List String)
  | limitC (n : Int)
  | offsetC (n : Int)

/-- Which builder method a `ClauseOp` invokes (`whereT`/`whereK` are both
`where`, `havingT`/`havingK` both `having`). -/
def ClauseOp.label : ClauseOp → Nat
  | .whereT .. => 0
  | .whereK .. => 0
  | .havingT .. => 1
  | .havingK .. => 1
  | .groupC .. => 2
  | .orderC .. => 3
  | .limitC .. => 4
  | .offsetC .. => 5

/-- Perform one builder call on a statement. -/
def applyC (s : table) : ClauseOp → Option table
  | .whereT t vs => s.where_ (some t) vs []
  | .whereK kw => s.where_ none [] kw
  | .havingT t vs => s.having (some t) vs []
  | .havingK kw => s.having none [] kw
  | .groupC cs => some (s.group_by cs)
  | .orderC cs => some (s.order_by cs)
  | .limitC n => some (s.limit n)
  | .offsetC n => some (s.offset n)

/-- Perform a sequence of builder calls left to right. -/
def applyCs (s : table) (ops : List ClauseOp) : Option table :=
  ops.foldlM applyC s

/-!
Object-store model of condition ownership.  In the source a `table` holds
*references* to mutable `where` objects, `table.copy` deep-copies them
(src/udbq.py:107-108), and `and_`/`or_` mutate the referenced object in
place (src/udbq.py:179-185).  `TableObj` keeps the plain-value attributes
in a `table` (whose own `cond`/`having` slots are unused, resolved on
`deref`) plus the two references into a store of `where` objects, so
aliasing between independently derived statements is observable.
-/

/-- The store of live `where` objects. -/
abbrev CStore := List Where

/-- Read a condition cell (a dangling reference, which the API never
creates, reads as an empty condition). -/
def lookupW (σ : CStore) (i : Nat) : Where :=
  (σ[i]?).getD ⟨"", []⟩

/-- A `table` object whose `where` conditions live behind references. -/
structure TableObj where
  st : table
  condRef : Option Nat
  havingRef : Option Nat

/-- Resolve the references: the plain `table` value this object denotes. -/
def TableObj.deref (σ : CStore) (t : TableObj) : table :=
  (t.st.setCond (t.condRef.map (lookupW σ))).setHaving (t.havingRef.map (lookupW σ))

/-- `table.copy` = `copy.deepcopy(self)` (src/udbq.py:107-108) on the
object graph: fresh cells are allocated for the referenced condition
objects; the plain-value attributes are copied as values. -/
def TableObj.copy (σ : CStore) (t : TableObj) : CStore × TableObj :=
  let p1 : CStore × Option Nat :=
    match t.condRef with
    | none => (σ, none)
    | some i => (σ ++ [lookupW σ i], some σ.length)
  let p2 : CStore × Option Nat :=
    match t.havingRef with
    | none => (p1.1, none)
    | some i => (p1.1 ++ [lookupW p1.1 i], some p1.1.length)
  (p2.1, ⟨t.st, p1.2, p2.2⟩)

/-- `table.clone_if` (src/udbq.py:110-114) on the object graph. -/
def TableObj.clone_if (σ : CStore) (t : TableObj) : CStore × TableObj :=
  if t.st.pristine then
    let p := TableObj.copy σ t
    (p.1, ⟨p.2.st.setPristine false, p.2.condRef, p.2.havingRef⟩)
  else (σ, t)

/-- `table.where` (src/udbq.py:163-169) on the object graph: clone if
pristine, then either allocate the first condition cell or AND-combine
into the owned cell in place. -/
def TableObj.where_ (σ : CStore) (t : TableObj) (c : Option String)
    (vs : List Val) (kw : List (String × KwVal)) : Option (CStore × TableObj) :=
  let p := TableObj.clone_if σ t
  match p.2.condRef with
  | none => (Where.init c vs kw).map fun w =>
      (p.1 ++ [w], ⟨p.2.st, some p.1.length, p.2.havingRef⟩)
  | some i => ((lookupW p.1 i).and_ (.frag c vs kw)).map fun w =>
      (p.1.set i w, p.2)

/-- `table.and_` / `table.or_` (src/udbq.py:179-185) on the object graph:
no clone; the owned condition cell is mutated in place (`none` models the
`AttributeError` when no condition exists). -/
def TableObj.connect (σ : CStore) (t : TableObj) (op : String)
    (arg : WhereArg) : Option (CStore × TableObj) :=
  match t.condRef with
  | none => none
  | some i => ((lookupW σ i).connect op arg).map fun w => (σ.set i w, t)

/-- Render an object-graph statement: resolve the references, render the
value. -/
def TableObj.render (f : Nat) (σ : CStore) (t : TableObj) :
    Option (String × List Val) :=
  table.render f (t.deref σ)

/-!
Model of `ResultSet` (src/udbq.py:312-331) over an abstract driver cursor:
the cursor holds the remaining rows and a closed flag; `fetchone` on an
exhausted cursor keeps answering "no row" (the sqlite3 behaviour the source
relies on).
-/

/-- A driver cursor: remaining rows, and whether `close()` was called. -/
structure Cursor (Row : Type) where
  rows : List Row
  closed : Bool

/-- `cur.fetchone()`: next row if any, and the cursor afterwards. -/
def Cursor.fetchone {Row : Type} : Cursor Row → Option Row × Cursor Row
  | ⟨[], cl⟩ => (none, ⟨[], cl⟩)
  | ⟨r :: rest, cl⟩ => (some r, ⟨rest, cl⟩)

/-- `cur.close()`. -/
def Cursor.close {Row : Type} (c : Cursor Row) : Cursor Row :=
  ⟨c.rows, true⟩

/-- `ResultSet` (src/udbq.py:312-331): an optional cursor (set to `None`
once released) and the row-wrapping constructor. -/
structure ResultSet (Row Obj : Type) where
  cur : Option (Cursor Row)
  cls : Row → Obj

/-- The outcome of one `ResultSet.__next__` call: a wrapped row, the
`StopIteration` terminal signal (carrying the cursor it just closed), or
the `AttributeError` raised by `self.cur.fetchone()` when `self.cur` is
`None`. -/
inductive NextOutcome (Row Obj : Type) where
  | row (o : Obj) (rs : ResultSet Row Obj)
  | stop (closedCur : Cursor Row) (rs : ResultSet Row Obj)
  | attrError

/-- `ResultSet.__next__` (src/udbq.py:320-326). -/
def ResultSet.next {Row Obj : Type} (rs : ResultSet Row Obj) :
    NextOutcome Row Obj :=
  match rs.cur with
  | none => .attrError
  | some c =>
    match Cursor.fetchone c with
    | (none, c2) => .stop c2.close ⟨none, rs.cls⟩
    | (some r, c2) => .row (rs.cls r) ⟨some c2, rs.cls⟩

/-- `ResultSet.close` (src/udbq.py:328-331): release the cursor if still
held, else do nothing; returns the closed cursor when one was held. -/
def ResultSet.close {Row Obj : Type} (rs : ResultSet Row Obj) :
    ResultSet Row Obj × Option (Cursor Row) :=
  match rs.cur with
  | none => (rs, none)
  | some c => (⟨none, rs.cls⟩, some c.close)

/-!
Concrete statement values used by the closed instance theorems below.
Each is tied to its builder-chain provenance in the theorem that uses it.
-/

/-- `table("t").where(x=(1, 2), y=None, z=3)` (the derived, no longer
pristine statement). -/
def exWhere : table :=
  .mk false ["t"] .SELECT [Sum.inl "*"] []
    (some ⟨"x IN (?, ?) AND y IS NULL AND z=?", [.vint 1, .vint 2, .vint 3]⟩)
    "" "" none "" "" [] none

/-- `table("s").where(y=2)`, used as a CTE sub-statement. -/
def exSub : table :=
  .mk false ["s"] .SELECT [Sum.inl "*"] [] (some ⟨"y=?", [.vint 2]⟩)
    "" "" none "" "" [] none

/-- `table("t").with_("a", exSub).insert(x=1)`: an INSERT whose CTE carries
one bound value. -/
def exCteInsert : table :=
  ((table.init ["t"]).with_ "a" exSub).insert [("x", .scalar (.vint 1))]

/-- `table("s2").where(k=7)`, a second CTE sub-statement. -/
def exSub2 : table :=
  .mk false ["s2"] .SELECT [Sum.inl "*"] [] (some ⟨"k=?", [.vint 7]⟩)
    "" "" none "" "" [] none

/-- `table("u").with_("b", exSub2).replace(c=9)`: an INSERT OR REPLACE
whose CTE carries one bound value. -/
def exCteReplace : table :=
  ((table.init ["u"]).with_ "b" exSub2).replace [("c", .scalar (.vint 9))]

/-! ## Basic lemmas -/

theorem countPH_append (a b : String) : countPH (a ++ b) = countPH a + countPH b := by
  simp [countPH, String.data_append, List.countP_append]

theorem countPH_phRep (n : Nat) : countPH (phRep n) = n := by
  induction n with
  | zero => rfl
  | succ n ih =>
    rw [phRep, countPH_append, ih]
    have h1 : countPH " ?" = 1 := by decide
    omega

theorem countPH_pyJoin (sep : String) (hsep : countPH sep = 0) (l : List String) :
    countPH (pyJoin sep l) = (l.map countPH).sum := by
  induction l with
  | nil => rfl
  | cons a rest ih =>
    cases rest with
    | nil => simp [pyJoin]
    | cons b rest2 =>
      have he : pyJoin sep (a :: b :: rest2) = a ++ sep ++ pyJoin sep (b :: rest2) := rfl
      rw [he, countPH_append, countPH_append, hsep, ih]
      simp

theorem countPH_replicate_q (n : Nat) :
    countPH (pyJoin ", " (List.replicate n "?")) = n := by
  rw [countPH_pyJoin ", " (by decide)]
  induction n with
  | zero => rfl
  | succ n ih =>
    rw [List.replicate_succ, List.map_cons, List.sum_cons, ih]
    have : countPH "?" = 1 := by decide
    omega

theorem mapM_option_eq_some {α β : Type} {g : α → Option β} :
    ∀ {l : List α} {r : List β},
      l.mapM g = some r ↔ List.Forall₂ (fun a b => g a = some b) l r := by
  intro l
  induction l with
  | nil =>
    intro r
    rw [List.mapM_nil]
    constructor
    · intro h
      cases h
      exact List.Forall₂.nil
    · intro h
      cases h
      rfl
  | cons a l ih =>
    intro r
    rw [List.mapM_cons]
    constructor
    · intro h
      simp only [bind, Option.bind_eq_some, pure, Option.some.injEq] at h
      obtain ⟨b, hb, bs, hbs, hr⟩ := h
      subst hr
      exact List.Forall₂.cons hb (ih.mp hbs)
    · intro h
      cases h with
      | cons hab hrest =>
        simp only [bind, Option.bind_eq_some, pure, Option.some.injEq]
        exact ⟨_, hab, _, ih.mpr hrest, rfl⟩

theorem mapM_option_mono {α β : Type} {g g2 : α → Option β}
    (hg : ∀ a b, g a = some b → g2 a = some b) {l : List α} {r : List β}
    (h : l.mapM g = some r) : l.mapM g2 = some r := by
  rw [mapM_option_eq_some] at h ⊢
  exact h.imp hg

/-! ## Determinism and totality of `render` -/

/-- The column-entry renderer at a given fuel (the body of the SELECT
column loop, src/udbq.py:249-255). -/
def colR (f : Nat) (c : String ⊕ table) : Option (String × List Val) :=
  match c with
  | Sum.inl s => some (s, ([] : List Val))
  | Sum.inr sub => (table.render f sub).map fun r =>
      ("(" ++ r.1 ++ ") AS " ++ sub.aliasStr, r.2)

/-- The CTE renderer at a given fuel (the body of the `withs` loop,
src/udbq.py:229-235). -/
def withR (f : Nat) (p : String × table) : Option (String × String × List Val) :=
  (table.render f p.2).map fun r => (p.1, r)

theorem render_succ' (f : Nat) (pr : Bool) (tbs : List String) (op : Op)
    (cs : List (String ⊕ table)) (ups : List (String × UpdVal)) (cond : Option Where)
    (ob gb : String) (hav : Option Where) (lim off : String)
    (ws : List (String × table)) (al : Option String) :
    table.render (f + 1) (.mk pr tbs op cs ups cond ob gb hav lim off ws al) =
      (ws.mapM (withR f)).bind fun wrs =>
        (if op = .SELECT then cs.mapM (colR f) else some []).bind fun crs =>
        some (renderPure tbs op crs ups cond gb hav ob lim off wrs) := by
  rw [table.render]
  by_cases hsel : op = .SELECT
  · simp only [hsel, if_true]
    rfl
  · simp only [if_neg hsel]
    rfl

theorem withR_mono {f f2 : Nat}
    (hmono : ∀ {s r}, table.render f s = some r → table.render f2 s = some r)
    (p : String × table) (b : String × String × List Val)
    (h : withR f p = some b) : withR f2 p = some b := by
  simp only [withR, Option.map_eq_some'] at h ⊢
  obtain ⟨r2, hr2, hb⟩ := h
  exact ⟨r2, hmono hr2, hb⟩

theorem colR_mono {f f2 : Nat}
    (hmono : ∀ {s r}, table.render f s = some r → table.render f2 s = some r)
    (c : String ⊕ table) (b : String × List Val)
    (h : colR f c = some b) : colR f2 c = some b := by
  cases c with
  | inl str => exact h
  | inr sub =>
    simp only [colR, Option.map_eq_some'] at h ⊢
    obtain ⟨r2, hr2, hb⟩ := h
    exact ⟨r2, hmono hr2, hb⟩

theorem render_mono : ∀ {f f2 : Nat} {s : table} {r : String × List Val},
    f ≤ f2 → table.render f s = some r → table.render f2 s = some r := by
  intro f
  induction f with
  | zero =>
    intro f2 s r _ h
    simp [table.render] at h
  | succ f ih =>
    intro f2 s r hle h
    obtain ⟨f3, rfl⟩ : ∃ g, f2 = g + 1 := ⟨f2 - 1, by omega⟩
    have hle2 : f ≤ f3 := by omega
    cases s with
    | mk pr tbs op cs ups cond ob gb hav lim off ws al =>
      rw [render_succ'] at h ⊢
      cases hw : ws.mapM (withR f) with
      | none => rw [hw, Option.none_bind] at h; cases h
      | some wrs =>
        rw [hw, Option.some_bind] at h
        rw [mapM_option_mono (withR_mono fun hx => ih hle2 hx) hw,
          Option.some_bind]
        by_cases hsel : op = .SELECT
        · rw [if_pos hsel] at h ⊢
          cases hc : cs.mapM (colR f) with
          | none => rw [hc, Option.none_bind] at h; cases h
          | some crs =>
            rw [hc, Option.some_bind] at h
            rw [mapM_option_mono (colR_mono fun hx => ih hle2 hx) hc,
              Option.some_bind]
            exact h
        · rw [if_neg hsel] at h ⊢
          exact h

theorem renders_unique {s : table} {r r2 : String × List Val}
    (h : s.Renders r) (h2 : s.Renders r2) : r = r2 := by
  obtain ⟨f, hf⟩ := h
  obtain ⟨g, hg⟩ := h2
  have ha := render_mono (Nat.le_max_left f g) hf
  have hb := render_mono (Nat.le_max_right f g) hg
  rw [ha] at hb
  exact Option.some.inj hb

theorem sizeOf_sub_lt_withs {a : String} {t : table} {ws : List (String × table)}
    (h : (a, t) ∈ ws) : sizeOf t < sizeOf ws := by
  have h1 := List.sizeOf_lt_of_mem h
  simp only [Prod.mk.sizeOf_spec] at h1
  omega

theorem sizeOf_sub_lt_cols {t : table} {cs : List (String ⊕ table)}
    (h : Sum.inr t ∈ cs) : sizeOf t < sizeOf cs := by
  have h1 := List.sizeOf_lt_of_mem h
  simp only [Sum.inr.sizeOf_spec] at h1
  omega

theorem mapM_fuel_withs {ws : List (String × table)}
    (h : ∀ p ∈ ws, ∃ f r, table.render f p.2 = some r) :
    ∃ f wrs, ws.mapM (withR f) = some wrs := by
  induction ws with
  | nil => exact ⟨0, [], by rw [List.mapM_nil]; rfl⟩
  | cons p rest ih =>
    obtain ⟨f1, r1, h1⟩ := h p (by simp)
    obtain ⟨f2, wrs, h2⟩ := ih fun q hq => h q (by simp [hq])
    refine ⟨max f1 f2, (p.1, r1) :: wrs, ?_⟩
    rw [List.mapM_cons]
    have hh : withR (max f1 f2) p = some (p.1, r1) := by
      rw [withR, render_mono (Nat.le_max_left f1 f2) h1]
      rfl
    have ht : rest.mapM (withR (max f1 f2)) = some wrs :=
      mapM_option_mono
        (withR_mono fun hx => render_mono (Nat.le_max_right f1 f2) hx) h2
    rw [hh, ht]
    rfl

theorem mapM_fuel_cols {cs : List (String ⊕ table)}
    (h : ∀ t, Sum.inr t ∈ cs → ∃ f r, table.render f t = some r) :
    ∃ f crs, cs.mapM (colR f) = some crs := by
  induction cs with
  | nil => exact ⟨0, [], by rw [List.mapM_nil]; rfl⟩
  | cons c rest ih =>
    obtain ⟨f2, crs, h2⟩ := ih fun t ht => h t (by simp [ht])
    cases c with
    | inl str =>
      refine ⟨f2, (str, []) :: crs, ?_⟩
      rw [List.mapM_cons, h2]
      rfl
    | inr sub =>
      obtain ⟨f1, r1, h1⟩ := h sub (by simp)
      refine ⟨max f1 f2, ("(" ++ r1.1 ++ ") AS " ++ sub.aliasStr, r1.2) :: crs, ?_⟩
      rw [List.mapM_cons]
      have hh : colR (max f1 f2) (Sum.inr sub) =
          some ("(" ++ r1.1 ++ ") AS " ++ sub.aliasStr, r1.2) := by
        rw [colR, render_mono (Nat.le_max_left f1 f2) h1]
        rfl
      have ht : rest.mapM (colR (max f1 f2)) = some crs :=
        mapM_option_mono
          (colR_mono fun hx => render_mono (Nat.le_max_right f1 f2) hx) h2
      rw [hh, ht]
      rfl

theorem render_total_aux :
    ∀ (n : Nat) (s : table), sizeOf s ≤ n → ∃ f r, table.render f s = some r := by
  intro n
  induction n with
  | zero =>
    intro s h
    exfalso
    cases s with
    | mk pr tbs op cs ups cond ob gb hav lim off ws al =>
      simp [table.mk.sizeOf_spec] at h
  | succ n ih =>
    intro s hs
    cases s with
    | mk pr tbs op cs ups cond ob gb hav lim off ws al =>
      simp only [table.mk.sizeOf_spec] at hs
      have hws : ∀ p ∈ ws, ∃ f r, table.render f p.2 = some r := by
        intro p hp
        refine ih p.2 ?_
        obtain ⟨a, t⟩ := p
        have hlt := sizeOf_sub_lt_withs hp
        simp only at hlt ⊢
        omega
      have hcs : ∀ t, Sum.inr t ∈ cs → ∃ f r, table.render f t = some r := by
        intro t ht
        refine ih t ?_
        have hlt := sizeOf_sub_lt_cols ht
        omega
      obtain ⟨fw, wrs, hw⟩ := mapM_fuel_withs hws
      obtain ⟨fc, crs, hc⟩ := mapM_fuel_cols hcs
      have hw2 : ws.mapM (withR (max fw fc)) = some wrs :=
        mapM_option_mono
          (withR_mono fun hx => render_mono (Nat.le_max_left fw fc) hx) hw
      have hc2 : cs.mapM (colR (max fw fc)) = some crs :=
        mapM_option_mono
          (colR_mono fun hx => render_mono (Nat.le_max_right fw fc) hx) hc
      refine ⟨max fw fc + 1, ?_, ?_⟩
      · exact renderPure tbs op
          (if op = .SELECT then crs else []) ups cond gb hav ob lim off wrs
      · rw [render_succ', hw2, Option.some_bind]
        by_cases hsel : op = .SELECT
        · rw [if_pos hsel, if_pos hsel, hc2, Option.some_bind]
        · rw [if_neg hsel, if_neg hsel, Option.some_bind]

theorem render_total (s : table) : ∃ r, s.Renders r := by
  obtain ⟨f, r, h⟩ := render_total_aux (sizeOf s) s (Nat.le_refl _)
  exact ⟨r, f, h⟩

/-! ## Claims C10 and C5: condition construction and combination -/

/-- C10: constructing a condition from a textual predicate with N
positional values appends exactly N `" ?"` placeholder tokens to the
supplied text (which is not scanned for its own placeholders), both at
construction and when extending with `and_`/`or_`; in particular
`where("x >", 5)` yields text `"x > ?"` with values `[5]`. -/
theorem claim_C10 :
    (∀ (t : String) (vs : List Val),
        Where.render_clause (some t) vs [] = some (t ++ phRep vs.length, vs))
  ∧ (∀ (w : Where) (t : String) (vs : List Val),
        w.and_ (.frag (some t) vs []) =
          some ⟨w.cond ++ " AND " ++ t ++ phRep vs.length, w.vals ++ vs⟩)
  ∧ (∀ (w : Where) (t : String) (vs : List Val),
        w.or_ (.frag (some t) vs []) =
          some ⟨w.cond ++ " OR " ++ t ++ phRep vs.length, w.vals ++ vs⟩)
  ∧ Where.init (some "x >") [Val.vint 5] [] = some ⟨"x > ?", [Val.vint 5]⟩ := by
  refine ⟨fun t vs => rfl, fun w t vs => ?_, fun w t vs => ?_, rfl⟩
  · simp only [Where.and_, Where.connect, Where.render_clause, Option.isSome_some,
      List.isEmpty_nil, Bool.not_true, Bool.and_false, Bool.false_eq_true, if_false,
      Option.map_some', String.append_assoc]
    rfl
  · simp only [Where.or_, Where.connect, Where.render_clause, Option.isSome_some,
      List.isEmpty_nil, Bool.not_true, Bool.and_false, Bool.false_eq_true, if_false,
      Option.map_some', String.append_assoc]
    rfl

/-- C5: combining with a Condition argument appends its text parenthesized
with its values in order; a fragment argument is appended unparenthesized;
and the chain `where(x=1).and_(y=2).or_(z=3)` on a fresh statement renders
`"x=? AND y=? OR z=?"` with values `[1, 2, 3]` in left-to-right order. -/
theorem claim_C5 :
    (∀ A B : Where, A.and_ (.sub B) =
        some ⟨A.cond ++ " AND (" ++ B.cond ++ ")", A.vals ++ B.vals⟩)
  ∧ (∀ (A : Where) (c : Option String) (vs : List Val)
        (kw : List (String × KwVal)) (t : String) (nvs : List Val),
        Where.render_clause c vs kw = some (t, nvs) →
        A.and_ (.frag c vs kw) = some ⟨A.cond ++ " AND " ++ t, A.vals ++ nvs⟩)
  ∧ ((((table.init ["t"]).where_ none [] [("x", .scalar (.vint 1))]).bind
        (fun s => s.and_ (.frag none [] [("y", .scalar (.vint 2))]))).bind
        (fun s => s.or_ (.frag none [] [("z", .scalar (.vint 3))]))).map table.cond =
      some (some ⟨"x=? AND y=? OR z=?", [Val.vint 1, Val.vint 2, Val.vint 3]⟩)
  ∧ ((((table.init ["t"]).where_ none [] [("x", .scalar (.vint 1))]).bind
        (fun s => s.and_ (.frag none [] [("y", .scalar (.vint 2))]))).bind
        (fun s => s.or_ (.frag none [] [("z", .scalar (.vint 3))]))).bind
        (fun s => table.render 1 s) =
      some ("SELECT * FROM t  WHERE x=? AND y=? OR z=?",
        [Val.vint 1, Val.vint 2, Val.vint 3]) := by
  refine ⟨fun A B => ?_, fun A c vs kw t nvs h => ?_, rfl, rfl⟩
  · simp only [Where.and_, Where.connect, String.append_assoc]
    rfl
  · simp only [Where.and_, Where.connect, h, Option.map_some', String.append_assoc]
    rfl

/-- Witness for the hypothesis-bearing part of `claim_C5`. -/
theorem claim_C5_witness :
    Where.render_clause (some "y>") [Val.vint 2] [] = some ("y> ?", [Val.vint 2])
  ∧ (Where.mk "x=?" [Val.vint 1]).and_ (.frag (some "y>") [Val.vint 2] []) =
      some ⟨"x=? AND y> ?", [Val.vint 1, Val.vint 2]⟩ :=
  ⟨rfl, claim_C5.2.1 ⟨"x=?", [Val.vint 1]⟩ (some "y>") [Val.vint 2] [] "y> ?"
    [Val.vint 2] rfl⟩

/-! ## Placeholder/value alignment (claim C1) -/

theorem countPH_opStr (op : Op) : countPH op.str = 0 := by
  cases op <;> decide

theorem renderKwargs_aligned : ∀ (kw : List (String × KwVal)),
    (∀ p ∈ kw, countPH p.1 = 0) →
    ((renderKwargs kw).1.map countPH).sum = (renderKwargs kw).2.length := by
  intro kw
  induction kw with
  | nil => intro _; rfl
  | cons p rest ih =>
    intro h
    obtain ⟨k, v⟩ := p
    have hk : countPH k = 0 := h (k, v) (by simp)
    have hr := ih fun q hq => h q (by simp [hq])
    cases v with
    | tup vs =>
      simp only [renderKwargs, List.map_cons, List.sum_cons, List.length_append]
      rw [countPH_append, countPH_append, countPH_append, hk, countPH_replicate_q]
      have e1 : countPH " IN (" = 0 := by decide
      have e2 : countPH ")" = 0 := by decide
      omega
    | null =>
      simp only [renderKwargs, List.map_cons, List.sum_cons]
      rw [countPH_append, hk]
      have e1 : countPH " IS NULL" = 0 := by decide
      simp only [List.length_cons] at *
      omega
    | scalar v =>
      simp only [renderKwargs, List.map_cons, List.sum_cons, List.length_cons]
      rw [countPH_append, hk]
      have e1 : countPH "=?" = 1 := by decide
      omega

theorem render_clause_aligned {c : Option String} {vs : List Val}
    {kw : List (String × KwVal)} {t : String} {nvs : List Val}
    (h : Where.render_clause c vs kw = some (t, nvs))
    (hc : ∀ t0, c = some t0 → countPH t0 = 0)
    (hk : ∀ p ∈ kw, countPH p.1 = 0) :
    countPH t = nvs.length := by
  rcases c with _ | t0
  · simp only [Where.render_clause, Option.isSome_none, Bool.false_and,
      Bool.false_eq_true, if_false, Option.some.injEq, Prod.mk.injEq] at h
    obtain ⟨ht, hv⟩ := h
    subst ht
    subst hv
    rw [countPH_pyJoin " AND " (by decide)]
    exact renderKwargs_aligned kw hk
  · rcases kw with _ | ⟨q, kw2⟩
    · simp only [Where.render_clause, Option.isSome_some, List.isEmpty_nil,
        Bool.not_true, Bool.and_false, Bool.false_eq_true, if_false,
        Option.some.injEq, Prod.mk.injEq] at h
      obtain ⟨ht, hv⟩ := h
      subst ht
      subst hv
      rw [countPH_append, countPH_phRep, hc t0 rfl]
      omega
    · simp [Where.render_clause] at h

theorem renderWiths_aligned {wrs : List (String × String × List Val)}
    (h : ∀ p ∈ wrs, countPH p.1 = 0 ∧ countPH p.2.1 = p.2.2.length) :
    countPH (renderWiths wrs).1 = (renderWiths wrs).2.length := by
  rcases hw : wrs with _ | ⟨p, rest⟩
  · rfl
  · rw [← hw]
    have hne : wrs.isEmpty = false := by rw [hw]; rfl
    rw [renderWiths, if_neg (by rw [hne]; exact Bool.false_ne_true)]
    simp only
    rw [countPH_append, countPH_pyJoin ", " (by decide), List.length_flatten]
    have e0 : countPH "WITH " = 0 := by decide
    rw [e0, List.map_map, List.map_map]
    have : ∀ q ∈ wrs, (countPH ∘ fun p => p.1 ++ " AS (" ++ p.2.1 ++ ") ") q =
        (List.length ∘ fun p => p.2.2) q := by
      intro q hq
      obtain ⟨hq1, hq2⟩ := h q hq
      simp only [Function.comp]
      rw [countPH_append, countPH_append, countPH_append, hq1, hq2]
      have e1 : countPH " AS (" = 0 := by decide
      have e2 : countPH ") " = 0 := by decide
      omega
    rw [List.map_congr_left this]
    omega

theorem renderUpdates_aligned {ups : List (String × UpdVal)}
    (h : ∀ u ∈ ups, countPH u.1 = 0 ∧
      (∀ hd ex, u.2 = .expr hd ex → countPH hd = ex.length)) :
    countPH (renderUpdates ups).1 = (renderUpdates ups).2.length := by
  rw [renderUpdates]
  simp only
  rw [countPH_pyJoin "," (by decide), List.length_flatten, List.map_map, List.map_map]
  have : ∀ u ∈ ups, (countPH ∘ fun u => (updPart u).1) u =
      (List.length ∘ fun u => (updPart u).2) u := by
    intro u hu
    obtain ⟨h1, h2⟩ := h u hu
    obtain ⟨k, v⟩ := u
    cases v with
    | scalar v =>
      simp only [Function.comp, updPart]
      rw [countPH_append, countPH_append, h1]
      have e1 : countPH " " = 0 := by decide
      have e2 : countPH "=?" = 1 := by decide
      simp [e1, e2]
    | expr hd ex =>
      simp only [Function.comp, updPart]
      rw [countPH_append, countPH_append, countPH_append, h1, h2 hd ex rfl]
      have e1 : countPH " " = 0 := by decide
      have e2 : countPH "=" = 0 := by decide
      omega
  rw [List.map_congr_left this]

theorem countPH_pyJoin_zero {sep : String} (hsep : countPH sep = 0)
    {l : List String} (h : ∀ t ∈ l, countPH t = 0) :
    countPH (pyJoin sep l) = 0 := by
  rw [countPH_pyJoin sep hsep]
  refine List.sum_eq_zero ?_
  intro x hx
  obtain ⟨t, ht, rfl⟩ := List.mem_map.mp hx
  exact h t ht

theorem countPH_tablesS {tbs : List String} (h : ∀ t ∈ tbs, countPH t = 0) :
    countPH (pyJoin ", " tbs ++ " ") = 0 := by
  rw [countPH_append, countPH_pyJoin_zero (by decide) h]
  decide

theorem renderTail_aligned {cond : Option Where} {gb : String} {hav : Option Where}
    {ob lim off : String} {p : String × List Val}
    (hp : countPH p.1 = p.2.length)
    (hcond : ∀ w, cond = some w → countPH w.cond = w.vals.length)
    (hhav : ∀ w, hav = some w → countPH w.cond = w.vals.length)
    (hgb : countPH gb = 0) (hob : countPH ob = 0)
    (hlim : countPH lim = 0) (hoff : countPH off = 0) :
    countPH (renderTail cond gb hav ob lim off p).1 =
      (renderTail cond gb hav ob lim off p).2.length := by
  obtain ⟨sql, vals⟩ := p
  dsimp only at hp
  rcases cond with _ | w <;> rcases hav with _ | w2 <;>
    simp only [renderTail, countPH_append, List.length_append, hgb, hob, hlim, hoff]
  · omega
  · have := hhav w2 rfl
    have e1 : countPH " HAVING " = 0 := by decide
    omega
  · have := hcond w rfl
    have e1 : countPH " WHERE " = 0 := by decide
    omega
  · have h1 := hcond w rfl
    have h2 := hhav w2 rfl
    have e1 : countPH " WHERE " = 0 := by decide
    have e2 : countPH " HAVING " = 0 := by decide
    omega

theorem countPH_colsJoin {crs : List (String × List Val)}
    (hcrs : ∀ c ∈ crs, countPH c.1 = c.2.length) :
    countPH (pyJoin ", " (crs.map fun c => c.1)) =
      ((crs.map fun c => c.2).flatten).length := by
  rw [countPH_pyJoin ", " (by decide), List.length_flatten, List.map_map, List.map_map]
  have hco : ∀ c ∈ crs, (countPH ∘ fun c => c.1) c = (List.length ∘ fun c => c.2) c := by
    intro c hc
    simp only [Function.comp]
    exact hcrs c hc
  rw [List.map_congr_left hco]

theorem countPH_fromPart {tbs : List String} (htbs : ∀ t ∈ tbs, countPH t = 0) :
    countPH (if tbs.isEmpty then "" else "FROM " ++ (pyJoin ", " tbs ++ " ")) = 0 := by
  by_cases he : tbs.isEmpty
  · rw [if_pos he]
    decide
  · rw [if_neg he, countPH_append, countPH_tablesS htbs]
    decide

theorem renderPure_aligned {tbs : List String} {op : Op}
    {crs : List (String × List Val)} {ups : List (String × UpdVal)}
    {cond : Option Where} {gb : String} {hav : Option Where} {ob lim off : String}
    {wrs : List (String × String × List Val)}
    (htbs : ∀ t ∈ tbs, countPH t = 0)
    (hcond : ∀ w, cond = some w → countPH w.cond = w.vals.length)
    (hhav : ∀ w, hav = some w → countPH w.cond = w.vals.length)
    (hgb : countPH gb = 0) (hob : countPH ob = 0)
    (hlim : countPH lim = 0) (hoff : countPH off = 0)
    (hups : ∀ u ∈ ups, countPH u.1 = 0 ∧
      (∀ hd ex, u.2 = .expr hd ex → countPH hd = ex.length))
    (hcrs : ∀ c ∈ crs, countPH c.1 = c.2.length)
    (hwrs : ∀ p ∈ wrs, countPH p.1 = 0 ∧ countPH p.2.1 = p.2.2.length)
    (hins : op.isInsert = true → wrs = []) :
    countPH (renderPure tbs op crs ups cond gb hav ob lim off wrs).1 =
      (renderPure tbs op crs ups cond gb hav ob lim off wrs).2.length := by
  have hwiths := renderWiths_aligned hwrs
  have htab := countPH_tablesS htbs
  have hop := countPH_opStr op
  have espace : countPH " " = 0 := by decide
  have hsql1 : countPH ((if (renderWiths wrs).1.isEmpty then (renderWiths wrs).1
      else (renderWiths wrs).1 ++ " ") ++ op.str ++ " ") =
      (renderWiths wrs).2.length := by
    by_cases he : (renderWiths wrs).1.isEmpty
    · rw [if_pos he, countPH_append, countPH_append, hop]
      omega
    · rw [if_neg he, countPH_append, countPH_append, countPH_append, hop, espace]
      omega
  cases op with
  | INSERT =>
    have hw0 : wrs = [] := hins (by decide)
    subst hw0
    have hwe : renderWiths ([] : List (String × String × List Val)) = ("", []) := rfl
    simp only [renderPure, hwe] at *
    have hee : ("" : String).isEmpty = true := rfl
    rw [if_pos hee] at hsql1 ⊢
    simp only [countPH_append, List.length_map]
    simp only [countPH_append] at hsql1
    rw [countPH_replicate_q]
    have htbs0 : countPH (pyJoin ", " tbs) = 0 := countPH_pyJoin_zero (by decide) htbs
    have eemp : countPH "" = 0 := by decide
    have hz : countPH (pyJoin ", " (ups.map fun u => u.1)) = 0 := by
      rw [countPH_pyJoin ", " (by decide), List.map_map]
      refine List.sum_eq_zero ?_
      intro x hx
      obtain ⟨u, hu, rfl⟩ := List.mem_map.mp hx
      exact (hups u hu).1
    rw [hz]
    have e1 : countPH " INTO " = 0 := by decide
    have e2 : countPH "(" = 0 := by decide
    have e3 : countPH ") VALUES (" = 0 := by decide
    have e4 : countPH ")" = 0 := by decide
    omega
  | INSERT_OR_REPLACE =>
    have hw0 : wrs = [] := hins (by decide)
    subst hw0
    have hwe : renderWiths ([] : List (String × String × List Val)) = ("", []) := rfl
    simp only [renderPure, hwe] at *
    have hee : ("" : String).isEmpty = true := rfl
    rw [if_pos hee] at hsql1 ⊢
    simp only [countPH_append, List.length_map]
    simp only [countPH_append] at hsql1
    rw [countPH_replicate_q]
    have htbs0 : countPH (pyJoin ", " tbs) = 0 := countPH_pyJoin_zero (by decide) htbs
    have eemp : countPH "" = 0 := by decide
    have hz : countPH (pyJoin ", " (ups.map fun u => u.1)) = 0 := by
      rw [countPH_pyJoin ", " (by decide), List.map_map]
      refine List.sum_eq_zero ?_
      intro x hx
      obtain ⟨u, hu, rfl⟩ := List.mem_map.mp hx
      exact (hups u hu).1
    rw [hz]
    have e1 : countPH " INTO " = 0 := by decide
    have e2 : countPH "(" = 0 := by decide
    have e3 : countPH ") VALUES (" = 0 := by decide
    have e4 : countPH ")" = 0 := by decide
    omega
  | SELECT =>
    simp only [renderPure]
    refine renderTail_aligned ?_ hcond hhav hgb hob hlim hoff
    simp only [countPH_append, List.length_append]
    simp only [countPH_append] at hsql1
    rw [countPH_colsJoin hcrs, countPH_fromPart htbs]
    omega
  | DELETE =>
    simp only [renderPure]
    refine renderTail_aligned ?_ hcond hhav hgb hob hlim hoff
    simp only [countPH_append]
    simp only [countPH_append] at hsql1
    rw [countPH_fromPart htbs]
    omega
  | UPDATE =>
    simp only [renderPure]
    refine renderTail_aligned ?_ hcond hhav hgb hob hlim hoff
    simp only [countPH_append, List.length_append]
    simp only [countPH_append] at hsql1
    have hupd := renderUpdates_aligned hups
    have htbs0 : countPH (pyJoin ", " tbs) = 0 := countPH_pyJoin_zero (by decide) htbs
    have e1 : countPH " SET" = 0 := by decide
    omega

theorem forall2_mem_right {α β : Type} {R : α → β → Prop} :
    ∀ {l1 : List α} {l2 : List β}, List.Forall₂ R l1 l2 →
      ∀ b ∈ l2, ∃ a ∈ l1, R a b := by
  intro l1 l2 h
  induction h with
  | nil => intro b hb; cases hb
  | cons hab hrest ih =>
    intro b hb
    rcases List.mem_cons.mp hb with rfl | hb
    · exact ⟨_, by simp, hab⟩
    · obtain ⟨a, ha, hr⟩ := ih b hb
      exact ⟨a, by simp [ha], hr⟩

theorem alignedOpt_spec {c : Option Where} (h : alignedOpt c = true) :
    ∀ w, c = some w → countPH w.cond = w.vals.length := by
  intro w hw
  subst hw
  simpa [alignedOpt] using h

theorem render_aligned : ∀ (f : Nat) (s : table) (r : String × List Val),
    table.render f s = some r → table.wf f s = true → countPH r.1 = r.2.length := by
  intro f
  induction f with
  | zero =>
    intro s r h _
    simp [table.render] at h
  | succ f ih =>
    intro s r h hwf
    cases s with
    | mk pr tbs op cs ups cond ob gb hav lim off ws al =>
      rw [render_succ'] at h
      rw [table.wf] at hwf
      simp only [Bool.and_eq_true, beq_iff_eq, List.all_eq_true] at hwf
      obtain ⟨htbs, hcond, hhav, hob, hgb, hlim, hoff, hups, hcs, hws, hins⟩ := hwf
      have hwrsP : ∀ wrs, ws.mapM (withR f) = some wrs →
          ∀ p ∈ wrs, countPH p.1 = 0 ∧ countPH p.2.1 = p.2.2.length := by
        intro wrs hwm p hp
        obtain ⟨q, hq, hr⟩ := forall2_mem_right (mapM_option_eq_some.mp hwm) p hp
        have hqw := hws q hq
        simp only [Bool.and_eq_true, beq_iff_eq] at hqw
        simp only [withR, Option.map_eq_some'] at hr
        obtain ⟨r2, hr2, rfl⟩ := hr
        exact ⟨hqw.1, ih q.2 r2 hr2 hqw.2⟩
      have hcrsP : ∀ crs, cs.mapM (colR f) = some crs →
          ∀ c ∈ crs, countPH c.1 = c.2.length := by
        intro crs hcm c hc
        obtain ⟨a, ha, hr⟩ := forall2_mem_right (mapM_option_eq_some.mp hcm) c hc
        have haw := hcs a ha
        cases a with
        | inl str =>
          simp only [colR] at hr
          cases hr
          simpa using haw
        | inr sub =>
          simp only [Bool.and_eq_true, beq_iff_eq] at haw
          simp only [colR, Option.map_eq_some'] at hr
          obtain ⟨r2, hr2, rfl⟩ := hr
          have hsub := ih sub r2 hr2 haw.2
          simp only [countPH_append]
          rw [hsub, haw.1]
          have e1 : countPH "(" = 0 := by decide
          have e2 : countPH ") AS " = 0 := by decide
          omega
      have hupsP : ∀ u ∈ ups, countPH u.1 = 0 ∧
          (∀ hd ex, u.2 = .expr hd ex → countPH hd = ex.length) := by
        intro u hu
        have h1 := hups u hu
        simp only [Bool.and_eq_true, beq_iff_eq] at h1
        refine ⟨h1.1, ?_⟩
        intro hd ex he
        have h2 := h1.2
        rw [he] at h2
        simpa [updWf] using h2
      have htbsP : ∀ t ∈ tbs, countPH t = 0 := htbs
      cases hwm : ws.mapM (withR f) with
      | none =>
        rw [hwm, Option.none_bind] at h
        cases h
      | some wrs =>
        rw [hwm, Option.some_bind] at h
        have hinsP : op.isInsert = true → wrs = [] := by
          intro hop
          rw [if_pos hop] at hins
          rw [List.isEmpty_iff] at hins
          subst hins
          rw [List.mapM_nil] at hwm
          cases hwm
          rfl
        by_cases hsel : op = .SELECT
        · rw [if_pos hsel] at h
          cases hcm : cs.mapM (colR f) with
          | none =>
            rw [hcm, Option.none_bind] at h
            cases h
          | some crs =>
            rw [hcm, Option.some_bind] at h
            injection h with h
            subst h
            exact renderPure_aligned htbsP (alignedOpt_spec hcond)
              (alignedOpt_spec hhav) hgb hob hlim hoff hupsP
              (hcrsP crs hcm) (hwrsP wrs hwm) hinsP
        · rw [if_neg hsel, Option.some_bind] at h
          injection h with h
          subst h
          exact renderPure_aligned htbsP (alignedOpt_spec hcond)
            (alignedOpt_spec hhav) hgb hob hlim hoff hupsP
            (by intro c hc; cases hc) (hwrsP wrs hwm) hinsP

/-- C1 (amended): for any successful render, the number of `?` placeholders
in the SQL text equals the length of the value list, across the textual,
keyword (tuple `IN` / `IS NULL` / equality), INSERT/UPDATE assignment
(including raw-expression tuples), CTE and scalar sub-select construction
modes — provided the caller-supplied raw text carries no stray `?` (raw
update expressions carry exactly one `?` per extra bound value) and no
INSERT/INSERT OR REPLACE statement registers CTEs (`table.wf`). -/
theorem claim_C1 (f : Nat) (s : table) (t : String) (vs : List Val)
    (h : table.render f s = some (t, vs)) (hwf : table.wf f s = true) :
    countPH t = vs.length :=
  render_aligned f s (t, vs) h hwf

/-- Witness for `claim_C1` at the concrete statement
`table("t").where(x=(1, 2), y=None, z=3)`. -/
theorem claim_C1_witness :
    (table.init ["t"]).where_ none []
        [("x", .tup [.vint 1, .vint 2]), ("y", .null), ("z", .scalar (.vint 3))] =
      some exWhere
  ∧ table.render 1 exWhere =
      some ("SELECT * FROM t  WHERE x IN (?, ?) AND y IS NULL AND z=?",
        [Val.vint 1, Val.vint 2, Val.vint 3])
  ∧ table.wf 1 exWhere = true
  ∧ countPH "SELECT * FROM t  WHERE x IN (?, ?) AND y IS NULL AND z=?" =
      ([Val.vint 1, Val.vint 2, Val.vint 3] : List Val).length :=
  ⟨rfl, rfl, by decide,
    claim_C1 1 exWhere "SELECT * FROM t  WHERE x IN (?, ?) AND y IS NULL AND z=?"
      [Val.vint 1, Val.vint 2, Val.vint 3] rfl (by decide)⟩

/-- C1 counterexample: as stated (with no proviso), the claim fails — an
INSERT combined with a CTE whose sub-statement binds one value renders two
`?` placeholders but a one-element value list, because the INSERT branch of
`table.render` discards the CTE values (src/udbq.py:245). -/
theorem claim_C1_counterexample :
    (table.init ["s"]).where_ none [] [("y", .scalar (.vint 2))] = some exSub
  ∧ table.render 2 exCteInsert =
      some ("WITH a AS (SELECT * FROM s  WHERE y=?)  INSERT  INTO t (x) VALUES (?)",
        [Val.vint 1])
  ∧ countPH "WITH a AS (SELECT * FROM s  WHERE y=?)  INSERT  INTO t (x) VALUES (?)" = 2
  ∧ ¬ countPH "WITH a AS (SELECT * FROM s  WHERE y=?)  INSERT  INTO t (x) VALUES (?)" =
      ([Val.vint 1] : List Val).length :=
  ⟨rfl, rfl, by decide, by decide⟩

/-! ## Claims C8, C9 (sql() and empty assignment mappings) and C7 -/

/-- C8: whenever `render` succeeds, `sql()` returns exactly the rendered
SQL text if the rendered value list is empty, and fails (the source's
`assert not vals`) if it is non-empty. -/
theorem claim_C8 (f : Nat) (s : table) (t : String) (vs : List Val)
    (h : table.render f s = some (t, vs)) :
    (table.sql f s = some t ↔ vs = []) ∧ (table.sql f s = none ↔ vs ≠ []) := by
  rw [table.sql, h, Option.some_bind]
  by_cases hv : vs = []
  · subst hv
    simp
  · rw [if_neg (by simpa [List.isEmpty_iff] using hv)]
    simp [hv]

/-- Witness for `claim_C8` on the literal statement `table("t")`. -/
theorem claim_C8_witness :
    table.render 1 (table.init ["t"]) = some ("SELECT * FROM t ", [])
  ∧ ((table.sql 1 (table.init ["t"]) = some "SELECT * FROM t " ↔ ([] : List Val) = [])
      ∧ (table.sql 1 (table.init ["t"]) = none ↔ ([] : List Val) ≠ [])) :=
  ⟨rfl, claim_C8 1 (table.init ["t"]) "SELECT * FROM t " [] rfl⟩

/-- C9 (amended): rendering an UPDATE, INSERT or INSERT OR REPLACE whose
assignment mapping is empty does not fail; it succeeds, emitting an empty
column/placeholder list (`INSERT  INTO <t> () VALUES ()`) or a bare `SET`
(`UPDATE <t>  SET`) and no bound values — rejecting such SQL is left to the
database driver. -/
theorem claim_C9 (f : Nat) :
    (∀ (tbs : List String) (ups : List (String × UpdVal)),
        (table.render (f + 1) ((table.init tbs).insert ups)).isSome = true
      ∧ (table.render (f + 1) ((table.init tbs).replace ups)).isSome = true
      ∧ (table.render (f + 1) ((table.init tbs).update ups)).isSome = true)
  ∧ table.render (f + 1) ((table.init ["t"]).insert []) =
      some ("INSERT  INTO t () VALUES ()", [])
  ∧ table.render (f + 1) ((table.init ["t"]).replace []) =
      some ("INSERT OR REPLACE  INTO t () VALUES ()", [])
  ∧ table.render (f + 1) ((table.init ["t"]).update []) =
      some ("UPDATE t  SET", []) :=
  ⟨fun _ _ => ⟨rfl, rfl, rfl⟩, rfl, rfl, rfl⟩

/-- C9 counterexample: the claim as stated says rendering an empty-mapping
INSERT/UPDATE fails with a usage error; instead `render` succeeds and
produces SQL text. -/
theorem claim_C9_counterexample :
    table.render 1 ((table.init ["t"]).insert []) =
      some ("INSERT  INTO t () VALUES ()", [])
  ∧ table.render 1 ((table.init ["t"]).update []) = some ("UPDATE t  SET", []) :=
  ⟨rfl, rfl⟩

/-- C7: at exhaustion `ResultSet.__next__` closes the cursor and signals
the terminal `StopIteration`; `close()` is idempotent, safe both twice and
after exhaustion.  But requesting the next element *after* exhaustion
evaluates `None.fetchone()` and raises `AttributeError` — the code violates
the claim's "requesting the next element after exhaustion ... never raises
an error" (and the Python iterator protocol, which requires `StopIteration`
to repeat). -/
theorem claim_C7 :
    (∀ (Row Obj : Type) (cls : Row → Obj) (cl : Bool),
        ResultSet.next ⟨some ⟨[], cl⟩, cls⟩ = .stop ⟨[], true⟩ ⟨none, cls⟩)
  ∧ (∀ (Row Obj : Type) (cls : Row → Obj),
        ResultSet.next (⟨none, cls⟩ : ResultSet Row Obj) = NextOutcome.attrError)
  ∧ (∀ (Row Obj : Type) (rs : ResultSet Row Obj),
        ResultSet.close rs.close.1 = (rs.close.1, none))
  ∧ (∀ (Row Obj : Type) (cls : Row → Obj),
        ResultSet.close (⟨none, cls⟩ : ResultSet Row Obj) = (⟨none, cls⟩, none)) := by
  refine ⟨fun _ _ _ _ => rfl, fun _ _ _ => rfl, fun R O rs => ?_, fun _ _ _ => rfl⟩
  obtain ⟨cur, cls⟩ := rs
  cases cur <;> rfl

/-! ## Claim C3: the SQL text never embeds a bound value -/

theorem mapVals_aliasStr (f : Nat) (g : Val → Val) (s : table) :
    (table.mapVals f g s).aliasStr = s.aliasStr := by
  cases f with
  | zero => rfl
  | succ f => cases s with
    | mk pr tbs op cs ups cond ob gb hav lim off ws al => rfl

theorem mapM_withR_congr (f : Nat) (g : Val → Val) :
    ∀ (ws : List (String × table)) (wrs : List (String × String × List Val)),
    ws.mapM (withR f) = some wrs →
    (∀ p ∈ ws, ∀ r, table.render f p.2 = some r →
        ∃ r2, table.render f (table.mapVals f g p.2) = some r2 ∧
          r2.1 = r.1 ∧ r2.2.length = r.2.length) →
    ∃ wrs2, (ws.map fun p => (p.1, table.mapVals f g p.2)).mapM (withR f) = some wrs2 ∧
      wrs2.map (fun p => (p.1, p.2.1)) = wrs.map (fun p => (p.1, p.2.1)) ∧
      wrs2.map (fun p => p.2.2.length) = wrs.map (fun p => p.2.2.length) := by
  intro ws
  induction ws with
  | nil =>
    intro wrs h _
    rw [List.mapM_nil] at h
    cases h
    exact ⟨[], by rw [List.map_nil, List.mapM_nil]; rfl, rfl, rfl⟩
  | cons p rest ihl =>
    intro wrs h hsub
    rw [List.mapM_cons] at h
    simp only [bind, Option.bind_eq_some, pure, Option.some.injEq] at h
    obtain ⟨b, hb, bs, hbs, rfl⟩ := h
    obtain ⟨wrs2, h2, h21, h22⟩ := ihl bs hbs fun q hq => hsub q (by simp [hq])
    simp only [withR, Option.map_eq_some'] at hb
    obtain ⟨r, hr, rfl⟩ := hb
    obtain ⟨r2, hr2, hr21, hr22⟩ := hsub p (by simp) r hr
    refine ⟨(p.1, r2) :: wrs2, ?_, ?_, ?_⟩
    · rw [List.map_cons, List.mapM_cons]
      have hhead : withR f (p.1, table.mapVals f g p.2) = some (p.1, r2) := by
        rw [withR]
        dsimp only
        rw [hr2]
        rfl
      rw [hhead, h2]
      rfl
    · simp [h21, hr21]
    · simp [h22, hr22]

theorem mapM_colR_congr (f : Nat) (g : Val → Val) :
    ∀ (cs : List (String ⊕ table)) (crs : List (String × List Val)),
    cs.mapM (colR f) = some crs →
    (∀ sub : table, Sum.inr sub ∈ cs → ∀ r, table.render f sub = some r →
        ∃ r2, table.render f (table.mapVals f g sub) = some r2 ∧
          r2.1 = r.1 ∧ r2.2.length = r.2.length) →
    ∃ crs2, (cs.map fun c => match c with
        | Sum.inl st => Sum.inl st
        | Sum.inr sub => Sum.inr (table.mapVals f g sub)).mapM (colR f) = some crs2 ∧
      crs2.map (fun c => c.1) = crs.map (fun c => c.1) ∧
      crs2.map (fun c => c.2.length) = crs.map (fun c => c.2.length) := by
  intro cs
  induction cs with
  | nil =>
    intro crs h _
    rw [List.mapM_nil] at h
    cases h
    exact ⟨[], by rw [List.map_nil, List.mapM_nil]; rfl, rfl, rfl⟩
  | cons c rest ihl =>
    intro crs h hsub
    rw [List.mapM_cons] at h
    simp only [bind, Option.bind_eq_some, pure, Option.some.injEq] at h
    obtain ⟨b, hb, bs, hbs, rfl⟩ := h
    obtain ⟨crs2, h2, h21, h22⟩ := ihl bs hbs fun q hq r hr => hsub q (by simp [hq]) r hr
    cases c with
    | inl st =>
      simp only [colR] at hb
      cases hb
      refine ⟨(st, []) :: crs2, ?_, by simp [h21], by simp [h22]⟩
      rw [List.map_cons, List.mapM_cons]
      have hhead : colR f (Sum.inl st) = some (st, ([] : List Val)) := rfl
      rw [hhead, h2]
      rfl
    | inr sub =>
      simp only [colR, Option.map_eq_some'] at hb
      obtain ⟨r, hr, rfl⟩ := hb
      obtain ⟨r2, hr2, hr21, hr22⟩ := hsub sub (by simp) r hr
      refine ⟨("(" ++ r2.1 ++ ") AS " ++ (table.mapVals f g sub).aliasStr, r2.2) :: crs2,
        ?_, ?_, ?_⟩
      · rw [List.map_cons, List.mapM_cons]
        have hhead : colR f (Sum.inr (table.mapVals f g sub)) =
            some ("(" ++ r2.1 ++ ") AS " ++ (table.mapVals f g sub).aliasStr, r2.2) := by
          rw [colR, hr2]
          rfl
        rw [hhead, h2]
        rfl
      · simp only [List.map_cons, hr21, mapVals_aliasStr, h21]
      · simp only [List.map_cons, hr22, h22]

theorem renderWiths_text {wrs wrs2 : List (String × String × List Val)}
    (h1 : wrs2.map (fun p => (p.1, p.2.1)) = wrs.map (fun p => (p.1, p.2.1)))
    (h2 : wrs2.map (fun p => p.2.2.length) = wrs.map (fun p => p.2.2.length)) :
    (renderWiths wrs2).1 = (renderWiths wrs).1 ∧
      (renderWiths wrs2).2.length = (renderWiths wrs).2.length := by
  have hlen : wrs2.length = wrs.length := by
    have hc := congrArg List.length h1
    simpa using hc
  rcases wrs with _ | ⟨p, rest⟩
  · rcases wrs2 with _ | ⟨q, rest2⟩
    · exact ⟨rfl, rfl⟩
    · simp at hlen
  · rcases wrs2 with _ | ⟨q, rest2⟩
    · simp at hlen
    · rw [renderWiths, renderWiths, if_neg (by simp), if_neg (by simp)]
      constructor
      · dsimp only
        congr 1
        have hF : ∀ (l : List (String × String × List Val)),
            l.map (fun p => p.1 ++ " AS (" ++ p.2.1 ++ ") ") =
            (l.map (fun p => (p.1, p.2.1))).map
              (fun q0 => q0.1 ++ " AS (" ++ q0.2 ++ ") ") := by
          intro l
          rw [List.map_map]
          rfl
        rw [hF, hF, h1]
      · dsimp only
        simp only [List.length_flatten, List.map_map]
        have hF : ∀ (l : List (String × String × List Val)),
            l.map (List.length ∘ fun p => p.2.2) = l.map (fun p => p.2.2.length) := by
          intro l
          rfl
        rw [hF, hF, h2]

theorem renderUpdates_text (g : Val → Val) (ups : List (String × UpdVal)) :
    (renderUpdates (ups.map fun u => (u.1, u.2.mapV g))).1 = (renderUpdates ups).1 ∧
      (renderUpdates (ups.map fun u => (u.1, u.2.mapV g))).2.length =
        (renderUpdates ups).2.length := by
  constructor
  · rw [renderUpdates, renderUpdates]
    dsimp only
    congr 1
    rw [List.map_map]
    refine List.map_congr_left ?_
    intro u _
    obtain ⟨k, v⟩ := u
    cases v <;> rfl
  · rw [renderUpdates, renderUpdates]
    dsimp only
    simp only [List.length_flatten, List.map_map]
    congr 1
    refine List.map_congr_left ?_
    intro u _
    obtain ⟨k, v⟩ := u
    cases v with
    | scalar v => rfl
    | expr hd ex => simp [Function.comp, updPart, UpdVal.mapV]

theorem renderTail_text (g : Val → Val) {cond : Option Where} {gb : String}
    {hav : Option Where} {ob lim off : String} {p p2 : String × List Val}
    (ht : p2.1 = p.1) (hl : p2.2.length = p.2.length) :
    (renderTail (cond.map (Where.mapV g)) gb (hav.map (Where.mapV g)) ob lim off p2).1 =
      (renderTail cond gb hav ob lim off p).1 ∧
    (renderTail (cond.map (Where.mapV g)) gb (hav.map (Where.mapV g)) ob lim off p2).2.length =
      (renderTail cond gb hav ob lim off p).2.length := by
  rcases cond with _ | w <;> rcases hav with _ | w2 <;>
    simp only [renderTail, Option.map_some', Option.map_none', Where.mapV,
      List.length_append, List.length_map, ht, hl] <;>
    exact ⟨trivial, trivial⟩

theorem renderPure_text (g : Val → Val) {tbs : List String} {op : Op}
    {crs crs2 : List (String × List Val)} {ups : List (String × UpdVal)}
    {cond : Option Where} {gb : String} {hav : Option Where} {ob lim off : String}
    {wrs wrs2 : List (String × String × List Val)}
    (hcrs1 : crs2.map (fun c => c.1) = crs.map (fun c => c.1))
    (hcrs2 : crs2.map (fun c => c.2.length) = crs.map (fun c => c.2.length))
    (hwrs1 : wrs2.map (fun p => (p.1, p.2.1)) = wrs.map (fun p => (p.1, p.2.1)))
    (hwrs2 : wrs2.map (fun p => p.2.2.length) = wrs.map (fun p => p.2.2.length)) :
    (renderPure tbs op crs2 (ups.map fun u => (u.1, u.2.mapV g))
        (cond.map (Where.mapV g)) gb (hav.map (Where.mapV g)) ob lim off wrs2).1 =
      (renderPure tbs op crs ups cond gb hav ob lim off wrs).1 ∧
    (renderPure tbs op crs2 (ups.map fun u => (u.1, u.2.mapV g))
        (cond.map (Where.mapV g)) gb (hav.map (Where.mapV g)) ob lim off wrs2).2.length =
      (renderPure tbs op crs ups cond gb hav ob lim off wrs).2.length := by
  obtain ⟨hwt, hwl⟩ := renderWiths_text hwrs1 hwrs2
  cases op with
  | INSERT =>
    have hkeys : ((fun u => u.1) ∘ fun u : String × UpdVal => (u.1, UpdVal.mapV g u.2)) =
        (fun u : String × UpdVal => u.1) := rfl
    simp only [renderPure, hwt, List.map_map, List.length_map, hkeys]
    exact ⟨trivial, trivial⟩
  | INSERT_OR_REPLACE =>
    have hkeys : ((fun u => u.1) ∘ fun u : String × UpdVal => (u.1, UpdVal.mapV g u.2)) =
        (fun u : String × UpdVal => u.1) := rfl
    simp only [renderPure, hwt, List.map_map, List.length_map, hkeys]
    exact ⟨trivial, trivial⟩
  | SELECT =>
    simp only [renderPure]
    refine renderTail_text g ?_ ?_
    · dsimp only
      rw [hwt, hcrs1]
    · dsimp only
      simp only [List.length_append, List.length_flatten, List.map_map, hwl]
      congr 1
      have hF : ∀ (l : List (String × List Val)),
          l.map (List.length ∘ fun c => c.2) = l.map (fun c => c.2.length) := by
        intro l
        rfl
      rw [hF, hF, hcrs2]
  | DELETE =>
    simp only [renderPure]
    refine renderTail_text g ?_ ?_
    · dsimp only
      rw [hwt]
    · dsimp only
      rw [hwl]
  | UPDATE =>
    simp only [renderPure]
    obtain ⟨hut, hul⟩ := renderUpdates_text g ups
    refine renderTail_text g ?_ ?_
    · dsimp only
      rw [hwt, hut]
    · dsimp only
      simp only [List.length_append, hwl, hul]

theorem render_mapVals : ∀ (f : Nat) (g : Val → Val) (s : table)
    (r : String × List Val), table.render f s = some r →
    ∃ r2, table.render f (table.mapVals f g s) = some r2 ∧
      r2.1 = r.1 ∧ r2.2.length = r.2.length := by
  intro f
  induction f with
  | zero =>
    intro g s r h
    simp [table.render] at h
  | succ f ih =>
    intro g s r h
    cases s with
    | mk pr tbs op cs ups cond ob gb hav lim off ws al =>
      rw [render_succ'] at h
      cases hwm : ws.mapM (withR f) with
      | none =>
        rw [hwm, Option.none_bind] at h
        cases h
      | some wrs =>
        rw [hwm, Option.some_bind] at h
        obtain ⟨wrs2, hwm2, hw1, hw2⟩ :=
          mapM_withR_congr f g ws wrs hwm fun p _ r0 hr0 => ih g p.2 r0 hr0
        have hmv : table.mapVals (f + 1) g
            (.mk pr tbs op cs ups cond ob gb hav lim off ws al) =
            .mk pr tbs op
              (cs.map fun c => match c with
                | Sum.inl st => Sum.inl st
                | Sum.inr sub => Sum.inr (table.mapVals f g sub))
              (ups.map fun u => (u.1, u.2.mapV g))
              (cond.map (Where.mapV g)) ob gb (hav.map (Where.mapV g)) lim off
              (ws.map fun p => (p.1, table.mapVals f g p.2)) al := rfl
        rw [hmv, render_succ', hwm2, Option.some_bind]
        by_cases hsel : op = .SELECT
        · rw [if_pos hsel] at h ⊢
          cases hcm : cs.mapM (colR f) with
          | none =>
            rw [hcm, Option.none_bind] at h
            cases h
          | some crs =>
            rw [hcm, Option.some_bind] at h
            injection h with h
            subst h
            obtain ⟨crs2, hcm2, hc1, hc2⟩ :=
              mapM_colR_congr f g cs crs hcm fun sub _ r0 hr0 => ih g sub r0 hr0
            rw [hcm2, Option.some_bind]
            exact ⟨_, rfl, renderPure_text g hc1 hc2 hw1 hw2⟩
        · rw [if_neg hsel] at h ⊢
          rw [Option.some_bind] at h
          injection h with h
          subst h
          rw [Option.some_bind]
          exact ⟨_, rfl, renderPure_text g rfl rfl hw1 hw2⟩

/-- C3 (amended): condition and assignment values are carried exclusively
through the ordered value list — transforming every bound value stored in a
statement (`table.mapVals`) leaves the rendered SQL text identical (and the
value list's length unchanged), so no such value is ever inlined as literal
text.  This does **not** extend to `limit`/`offset`, whose arguments are
formatted into the clause text (see the counterexample). -/
theorem claim_C3 (f : Nat) (g : Val → Val) (s : table) (r : String × List Val)
    (h : table.render f s = some r) :
    ∃ r2, table.render f (table.mapVals f g s) = some r2 ∧
      r2.1 = r.1 ∧ r2.2.length = r.2.length :=
  render_mapVals f g s r h

/-- Witness for `claim_C3` at `table("t").where(x=(1, 2), y=None, z=3)`. -/
theorem claim_C3_witness :
    table.render 1 exWhere =
      some ("SELECT * FROM t  WHERE x IN (?, ?) AND y IS NULL AND z=?",
        [Val.vint 1, Val.vint 2, Val.vint 3])
  ∧ ∃ r2, table.render 1 (table.mapVals 1 (fun _ => Val.vint 9) exWhere) = some r2 ∧
      r2.1 = "SELECT * FROM t  WHERE x IN (?, ?) AND y IS NULL AND z=?" ∧
      r2.2.length = ([Val.vint 1, Val.vint 2, Val.vint 3] : List Val).length :=
  ⟨rfl, claim_C3 1 (fun _ => Val.vint 9) exWhere
    ("SELECT * FROM t  WHERE x IN (?, ?) AND y IS NULL AND z=?",
      [Val.vint 1, Val.vint 2, Val.vint 3]) rfl⟩

/-- C3 counterexample: the limit and offset arguments *are* inlined as
decimal literals in the SQL text — `table("t").limit(5)` renders
`"... LIMIT 5"` with an *empty* value list and no placeholder, so those
caller-supplied values are not carried through the value list. -/
theorem claim_C3_counterexample :
    table.render 1 ((table.init ["t"]).limit 5) =
      some ("SELECT * FROM t  LIMIT 5", [])
  ∧ table.render 1 ((table.init ["t"]).offset 7) =
      some ("SELECT * FROM t  OFFSET 7", [])
  ∧ countPH "SELECT * FROM t  LIMIT 5" = 0 :=
  ⟨rfl, rfl, by decide⟩

/-! ## Claim C4: CTE composition -/

theorem renderTail_prefix (cond : Option Where) (gb : String) (hav : Option Where)
    (ob lim off : String) (w : String) (wv : List Val) (p : String × List Val) :
    renderTail cond gb hav ob lim off (w ++ p.1, wv ++ p.2) =
      (w ++ (renderTail cond gb hav ob lim off p).1,
       wv ++ (renderTail cond gb hav ob lim off p).2) := by
  rcases cond with _ | w1 <;> rcases hav with _ | w2 <;>
    simp [renderTail, String.append_assoc, List.append_assoc]

theorem renderWiths_ne_empty {wrs : List (String × String × List Val)}
    (hne : wrs ≠ []) : (renderWiths wrs).1.isEmpty = false := by
  rcases wrs with _ | ⟨p, rest⟩
  · exact absurd rfl hne
  · rw [renderWiths, if_neg (by simp)]
    by_contra hcon
    rw [Bool.not_eq_false, String.isEmpty_iff] at hcon
    have hlen := congrArg String.length hcon
    rw [String.length_append] at hlen
    have h5 : "WITH ".length = 5 := rfl
    have h0 : ("" : String).length = 0 := rfl
    omega

theorem renderPure_withs_split (tbs : List String) (op : Op)
    (crs : List (String × List Val)) (ups : List (String × UpdVal))
    (cond : Option Where) (gb : String) (hav : Option Where) (ob lim off : String)
    (wrs : List (String × String × List Val))
    (hop : op.isInsert = false) (hne : wrs ≠ []) :
    renderPure tbs op crs ups cond gb hav ob lim off wrs =
      ((renderWiths wrs).1 ++ " " ++
        (renderPure tbs op crs ups cond gb hav ob lim off []).1,
       (renderWiths wrs).2 ++
        (renderPure tbs op crs ups cond gb hav ob lim off []).2) := by
  have hie := renderWiths_ne_empty hne
  have hwe : renderWiths ([] : List (String × String × List Val)) = ("", []) := rfl
  have hee : ("" : String).isEmpty = true := rfl
  cases op with
  | INSERT => simp [Op.isInsert] at hop
  | INSERT_OR_REPLACE => simp [Op.isInsert] at hop
  | SELECT =>
    simp only [renderPure, hwe, hie, Bool.false_eq_true, if_false, hee, if_true]
    rw [← renderTail_prefix cond gb hav ob lim off ((renderWiths wrs).1 ++ " ")
      (renderWiths wrs).2]
    congr 1
    refine congrArg₂ Prod.mk ?_ ?_
    · simp [String.append_assoc]
    · simp
  | DELETE =>
    simp only [renderPure, hwe, hie, Bool.false_eq_true, if_false, hee, if_true]
    rw [← renderTail_prefix cond gb hav ob lim off ((renderWiths wrs).1 ++ " ")
      (renderWiths wrs).2]
    congr 1
    refine congrArg₂ Prod.mk ?_ ?_
    · simp [String.append_assoc]
    · simp
  | UPDATE =>
    simp only [renderPure, hwe, hie, Bool.false_eq_true, if_false, hee, if_true]
    rw [← renderTail_prefix cond gb hav ob lim off ((renderWiths wrs).1 ++ " ")
      (renderWiths wrs).2]
    congr 1
    refine congrArg₂ Prod.mk ?_ ?_
    · simp [String.append_assoc]
    · simp

/-- C4 (amended): for SELECT, DELETE and UPDATE, a statement with
registered CTEs renders `WITH a1 AS (q1), a2 AS (q2), ... <outer sql>`,
each sub-statement rendered recursively in registration order (the `wrs`
hypothesis), and the value list is the concatenated sub-statement values
followed by the outer statement's own values.  For INSERT and INSERT OR
REPLACE the `WITH` text is still emitted but the value list is *exactly*
the assignment values: the CTE values are discarded (src/udbq.py:245). -/
theorem claim_C4 :
    (∀ (f : Nat) (pr : Bool) (tbs : List String) (op : Op)
        (cs : List (String ⊕ table)) (ups : List (String × UpdVal))
        (cond : Option Where) (ob gb : String) (hav : Option Where)
        (lim off : String) (ws : List (String × table)) (al : Option String)
        (wrs : List (String × String × List Val)) (r rc : String × List Val),
        op.isInsert = false → ws ≠ [] →
        ws.mapM (withR f) = some wrs →
        table.render (f + 1) (.mk pr tbs op cs ups cond ob gb hav lim off ws al) =
          some r →
        table.render (f + 1) (.mk pr tbs op cs ups cond ob gb hav lim off [] al) =
          some rc →
        r.1 = (renderWiths wrs).1 ++ " " ++ rc.1 ∧
        r.2 = (renderWiths wrs).2 ++ rc.2)
  ∧ (∀ (f : Nat) (pr : Bool) (tbs : List String) (op : Op)
        (cs : List (String ⊕ table)) (ups : List (String × UpdVal))
        (cond : Option Where) (ob gb : String) (hav : Option Where)
        (lim off : String) (ws : List (String × table)) (al : Option String)
        (r : String × List Val),
        op.isInsert = true →
        table.render (f + 1) (.mk pr tbs op cs ups cond ob gb hav lim off ws al) =
          some r →
        r.2 = ups.map fun u => insVal u.2) := by
  constructor
  · intro f pr tbs op cs ups cond ob gb hav lim off ws al wrs r rc hop hne hwm hr hrc
    rw [render_succ', hwm, Option.some_bind] at hr
    rw [render_succ', List.mapM_nil] at hrc
    have hrc2 : ((some [] : Option (List (String × String × List Val))).bind fun wrs0 =>
        (if op = .SELECT then cs.mapM (colR f) else some []).bind fun crs =>
          some (renderPure tbs op crs ups cond gb hav ob lim off wrs0)) = some rc := hrc
    rw [Option.some_bind] at hrc2
    by_cases hsel : op = .SELECT
    · rw [if_pos hsel] at hr hrc2
      cases hcm : cs.mapM (colR f) with
      | none =>
        rw [hcm, Option.none_bind] at hr
        cases hr
      | some crs =>
        rw [hcm, Option.some_bind] at hr hrc2
        injection hr with hr
        injection hrc2 with hrc2
        subst hr
        subst hrc2
        have hwne : wrs ≠ [] := by
          intro hcon
          subst hcon
          have hlen := (mapM_option_eq_some.mp hwm).length_eq
          rcases ws with _ | ⟨p, rest⟩
          · exact hne rfl
          · simp at hlen
        rw [renderPure_withs_split tbs op crs ups cond gb hav ob lim off wrs hop hwne]
        exact ⟨rfl, rfl⟩
    · rw [if_neg hsel, Option.some_bind] at hr hrc2
      injection hr with hr
      injection hrc2 with hrc2
      subst hr
      subst hrc2
      have hwne : wrs ≠ [] := by
        intro hcon
        subst hcon
        have hlen := (mapM_option_eq_some.mp hwm).length_eq
        rcases ws with _ | ⟨p, rest⟩
        · exact hne rfl
        · simp at hlen
      rw [renderPure_withs_split tbs op [] ups cond gb hav ob lim off wrs hop hwne]
      exact ⟨rfl, rfl⟩
  · intro f pr tbs op cs ups cond ob gb hav lim off ws al r hop hr
    rw [render_succ'] at hr
    cases hwm : ws.mapM (withR f) with
    | none =>
      rw [hwm, Option.none_bind] at hr
      cases hr
    | some wrs =>
      rw [hwm, Option.some_bind] at hr
      have hsel : ¬ op = .SELECT := by
        intro hcon
        subst hcon
        simp [Op.isInsert] at hop
      rw [if_neg hsel, Option.some_bind] at hr
      injection hr with hr
      subst hr
      cases op with
      | INSERT => rfl
      | INSERT_OR_REPLACE => rfl
      | SELECT => simp [Op.isInsert] at hop
      | UPDATE => simp [Op.isInsert] at hop
      | DELETE => simp [Op.isInsert] at hop

/-- Witness for `claim_C4`: `table("t").with_("a", table("s").where(y=2))`
renders with the CTE values first; the INSERT case is witnessed on
`exCteInsert`. -/
theorem claim_C4_witness :
    table.render 2 ((table.init ["t"]).with_ "a" exSub) =
      some ("WITH a AS (SELECT * FROM s  WHERE y=?)  SELECT * FROM t ", [Val.vint 2])
  ∧ ("WITH a AS (SELECT * FROM s  WHERE y=?)  SELECT * FROM t " =
        (renderWiths [("a", ("SELECT * FROM s  WHERE y=?", [Val.vint 2]))]).1 ++ " " ++
          "SELECT * FROM t "
      ∧ ([Val.vint 2] : List Val) =
        (renderWiths [("a", ("SELECT * FROM s  WHERE y=?", [Val.vint 2]))]).2 ++ [])
  ∧ ([Val.vint 1] : List Val) =
      [("x", UpdVal.scalar (Val.vint 1))].map fun u => insVal u.2 :=
  ⟨rfl,
   claim_C4.1 1 true ["t"] .SELECT [Sum.inl "*"] [] none "" "" none "" ""
     [("a", exSub)] none [("a", ("SELECT * FROM s  WHERE y=?", [Val.vint 2]))]
     ("WITH a AS (SELECT * FROM s  WHERE y=?)  SELECT * FROM t ", [Val.vint 2])
     ("SELECT * FROM t ", []) rfl (by simp) rfl rfl rfl,
   claim_C4.2 1 true ["t"] .INSERT [Sum.inl "*"] [("x", UpdVal.scalar (Val.vint 1))]
     none "" "" none "" "" [("a", exSub)] none
     ("WITH a AS (SELECT * FROM s  WHERE y=?)  INSERT  INTO t (x) VALUES (?)",
       [Val.vint 1]) rfl rfl⟩

/-- C4 counterexample: for an INSERT OR REPLACE with a CTE binding one
value, the rendered value list is only the assignment values — it does not
begin with the sub-statement's values as the claim states for every
operation kind. -/
theorem claim_C4_counterexample :
    table.render 1 exSub2 = some ("SELECT * FROM s2  WHERE k=?", [Val.vint 7])
  ∧ table.render 2 exCteReplace =
      some ("WITH b AS (SELECT * FROM s2  WHERE k=?)  INSERT OR REPLACE  INTO u (c) VALUES (?)",
        [Val.vint 9])
  ∧ ¬ ([Val.vint 9] : List Val) = [Val.vint 7] ++ [Val.vint 9] :=
  ⟨rfl, rfl, fun hcon => by
    have hlen := congrArg List.length hcon
    simp at hlen⟩

/-! ## Claim C6: fixed clause order, builder call order irrelevant -/

theorem renderTail_decomp (cond : Option Where) (gb : String) (hav : Option Where)
    (ob lim off : String) (p : String × List Val) :
    renderTail cond gb hav ob lim off p =
      (p.1 ++ (match cond with | some w => " WHERE " ++ w.cond | none => "") ++ gb ++
        (match hav with | some w => " HAVING " ++ w.cond | none => "") ++ ob ++ lim ++ off,
       p.2 ++ (match cond with | some w => w.vals | none => ([] : List Val)) ++
        (match hav with | some w => w.vals | none => ([] : List Val))) := by
  rcases cond with _ | w <;> rcases hav with _ | w2 <;>
    simp [renderTail, String.append_assoc, List.append_assoc]

theorem renderPure_tail (tbs : List String) (op : Op) (crs : List (String × List Val))
    (ups : List (String × UpdVal)) (cond : Option Where) (gb : String)
    (hav : Option Where) (ob lim off : String)
    (wrs : List (String × String × List Val)) (hop : op.isInsert = false) :
    renderPure tbs op crs ups cond gb hav ob lim off wrs =
      ((renderPure tbs op crs ups none "" none "" "" "" wrs).1 ++
          (match cond with | some w => " WHERE " ++ w.cond | none => "") ++ gb ++
          (match hav with | some w => " HAVING " ++ w.cond | none => "") ++ ob ++ lim ++ off,
       (renderPure tbs op crs ups none "" none "" "" "" wrs).2 ++
          (match cond with | some w => w.vals | none => ([] : List Val)) ++
          (match hav with | some w => w.vals | none => ([] : List Val))) := by
  cases op with
  | INSERT => simp [Op.isInsert] at hop
  | INSERT_OR_REPLACE => simp [Op.isInsert] at hop
  | SELECT =>
    simp only [renderPure]
    rw [renderTail_decomp, renderTail_decomp]
    rcases cond with _ | w <;> rcases hav with _ | w2 <;>
      simp [String.append_assoc, List.append_assoc]
  | DELETE =>
    simp only [renderPure]
    rw [renderTail_decomp, renderTail_decomp]
    rcases cond with _ | w <;> rcases hav with _ | w2 <;>
      simp [String.append_assoc, List.append_assoc]
  | UPDATE =>
    simp only [renderPure]
    rw [renderTail_decomp, renderTail_decomp]
    rcases cond with _ | w <;> rcases hav with _ | w2 <;>
      simp [String.append_assoc, List.append_assoc]

theorem option_bind_assoc {α β γ : Type} (m : Option α) (f : α → Option β)
    (g : β → Option γ) :
    (m.bind f).bind g = m.bind fun a => (f a).bind g := by
  cases m <;> rfl

theorem clone_if_eq (s : table) : s.clone_if = s.setPristine false := by
  obtain ⟨pr, tbs, op, cs, ups, cond, ob, gb, hav, lim, off, ws, al⟩ := s
  cases pr <;> rfl

theorem render_clause_textual (t : String) (vs : List Val) :
    Where.render_clause (some t) vs [] = some (t ++ phRep vs.length, vs) := rfl

theorem render_clause_kwargs (kw : List (String × KwVal)) :
    Where.render_clause none [] kw =
      some (pyJoin " AND " (renderKwargs kw).1, (renderKwargs kw).2) := rfl

set_option maxHeartbeats 2000000 in
theorem applyC_comm (s : table) (a b : ClauseOp) (hlab : a.label ≠ b.label) :
    (applyC s a).bind (fun s2 => applyC s2 b) =
      (applyC s b).bind (fun s2 => applyC s2 a) := by
  obtain ⟨pr, tbs, op, cs, ups, cond, ob, gb, hav, lim, off, ws, al⟩ := s
  cases a <;> cases b <;>
    first
      | exact absurd rfl hlab
      | (rcases cond with _ | w <;> rcases hav with _ | w2 <;>
          simp only [applyC, table.where_, table.having, table.group_by,
            table.order_by, table.limit, table.offset, clone_if_eq,
            table.setPristine, table.setCond, table.setHaving, table.setGroup,
            table.setOrder, table.setLimit, table.setOffset, table.cond,
            table._having, Where.init, Where.and_, Where.connect,
            render_clause_textual, render_clause_kwargs, Option.map_some',
            Option.some_bind])

theorem applyC_comm_k (s : table) (a b : ClauseOp) (hlab : a.label ≠ b.label)
    (k : table → Option table) :
    (applyC s a).bind (fun s1 => (applyC s1 b).bind k) =
      (applyC s b).bind (fun s1 => (applyC s1 a).bind k) := by
  rw [← option_bind_assoc (applyC s a) (fun s1 => applyC s1 b) k,
    ← option_bind_assoc (applyC s b) (fun s1 => applyC s1 a) k,
    applyC_comm s a b hlab]

theorem applyCs_cons (s : table) (a : ClauseOp) (l : List ClauseOp) :
    applyCs s (a :: l) = (applyC s a).bind fun s1 => applyCs s1 l := by
  rw [applyCs, List.foldlM_cons]
  rfl

theorem applyCs_perm {ops ops2 : List ClauseOp} (hperm : List.Perm ops ops2) :
    ops.Pairwise (fun a b => a.label ≠ b.label) →
    ∀ s : table, applyCs s ops = applyCs s ops2 := by
  induction hperm with
  | nil =>
    intro _ s
    rfl
  | cons x hp ih =>
    intro hnd s
    rw [applyCs_cons, applyCs_cons]
    have hnd2 := (List.pairwise_cons.mp hnd).2
    cases hx : applyC s x with
    | none => rfl
    | some s1 =>
      rw [Option.some_bind, Option.some_bind]
      exact ih hnd2 s1
  | swap x y l =>
    intro hnd s
    simp only [applyCs_cons]
    have hyx : y.label ≠ x.label := (List.pairwise_cons.mp hnd).1 x (by simp)
    exact applyC_comm_k s y x hyx fun s2 => applyCs s2 l
  | trans h1 h2 ih1 ih2 =>
    intro hnd s
    refine (ih1 hnd s).trans (ih2 ?_ s)
    exact (List.Perm.pairwise_iff (fun h => Ne.symm h) h1).mp hnd

/-- C6: (a) whatever subset of WHERE / GROUP BY / HAVING / ORDER BY /
LIMIT / OFFSET state a SELECT, DELETE or UPDATE statement carries, `render`
emits those clauses in exactly that fixed sequence after the clause-free
core, with the WHERE condition's values appended before the HAVING
condition's values; and (b) the result of a sequence of distinct
trailing-clause builder calls does not depend on the order of the calls. -/
theorem claim_C6 :
    (∀ (f : Nat) (pr : Bool) (tbs : List String) (op : Op)
        (cs : List (String ⊕ table)) (ups : List (String × UpdVal))
        (cond : Option Where) (ob gb : String) (hav : Option Where)
        (lim off : String) (ws : List (String × table)) (al : Option String)
        (r rc : String × List Val),
        op.isInsert = false →
        table.render (f + 1) (.mk pr tbs op cs ups cond ob gb hav lim off ws al) =
          some r →
        table.render (f + 1) (.mk pr tbs op cs ups none "" "" none "" "" ws al) =
          some rc →
        r.1 = rc.1 ++ (match cond with | some w => " WHERE " ++ w.cond | none => "") ++
          gb ++ (match hav with | some w => " HAVING " ++ w.cond | none => "") ++
          ob ++ lim ++ off ∧
        r.2 = rc.2 ++ (match cond with | some w => w.vals | none => ([] : List Val)) ++
          (match hav with | some w => w.vals | none => ([] : List Val)))
  ∧ (∀ (ops ops2 : List ClauseOp), List.Perm ops ops2 →
        ops.Pairwise (fun a b => a.label ≠ b.label) →
        ∀ s : table, applyCs s ops = applyCs s ops2) := by
  constructor
  · intro f pr tbs op cs ups cond ob gb hav lim off ws al r rc hop hr hrc
    rw [render_succ'] at hr hrc
    cases hwm : ws.mapM (withR f) with
    | none =>
      rw [hwm, Option.none_bind] at hr
      cases hr
    | some wrs =>
      rw [hwm, Option.some_bind] at hr hrc
      by_cases hsel : op = .SELECT
      · rw [if_pos hsel] at hr hrc
        cases hcm : cs.mapM (colR f) with
        | none =>
          rw [hcm, Option.none_bind] at hr
          cases hr
        | some crs =>
          rw [hcm, Option.some_bind] at hr hrc
          injection hr with hr
          injection hrc with hrc
          subst hr
          subst hrc
          rw [renderPure_tail tbs op crs ups cond gb hav ob lim off wrs hop]
          exact ⟨rfl, rfl⟩
      · rw [if_neg hsel, Option.some_bind] at hr hrc
        injection hr with hr
        injection hrc with hrc
        subst hr
        subst hrc
        rw [renderPure_tail tbs op [] ups cond gb hav ob lim off wrs hop]
        exact ⟨rfl, rfl⟩
  · intro ops ops2 hperm hnd s
    exact applyCs_perm hperm hnd s

/-- Witness for `claim_C6`: a statement with all six trailing clauses set,
and a two-builder sequence applied in both orders. -/
theorem claim_C6_witness :
    table.render 1 (table.mk false ["t"] .SELECT [Sum.inl "*"] []
        (some ⟨"x=?", [Val.vint 1]⟩) " ORDER BY o" " GROUP BY g"
        (some ⟨"h=?", [Val.vint 2]⟩) " LIMIT 3" " OFFSET 4" [] none) =
      some ("SELECT * FROM t  WHERE x=? GROUP BY g HAVING h=? ORDER BY o LIMIT 3 OFFSET 4",
        [Val.vint 1, Val.vint 2])
  ∧ ("SELECT * FROM t  WHERE x=? GROUP BY g HAVING h=? ORDER BY o LIMIT 3 OFFSET 4" =
      "SELECT * FROM t " ++ (" WHERE " ++ "x=?") ++ " GROUP BY g" ++
        (" HAVING " ++ "h=?") ++ " ORDER BY o" ++ " LIMIT 3" ++ " OFFSET 4"
    ∧ ([Val.vint 1, Val.vint 2] : List Val) = [] ++ [Val.vint 1] ++ [Val.vint 2])
  ∧ applyCs (table.init ["t"]) [ClauseOp.groupC ["g"], ClauseOp.limitC 3] =
      applyCs (table.init ["t"]) [ClauseOp.limitC 3, ClauseOp.groupC ["g"]] := by
  refine ⟨rfl, ?_, ?_⟩
  · have h := claim_C6.1 0 false ["t"] .SELECT [Sum.inl "*"] []
      (some ⟨"x=?", [Val.vint 1]⟩) " ORDER BY o" " GROUP BY g"
      (some ⟨"h=?", [Val.vint 2]⟩) " LIMIT 3" " OFFSET 4" [] none
      ("SELECT * FROM t  WHERE x=? GROUP BY g HAVING h=? ORDER BY o LIMIT 3 OFFSET 4",
        [Val.vint 1, Val.vint 2])
      ("SELECT * FROM t ", []) rfl rfl rfl
    exact h
  · exact claim_C6.2 [ClauseOp.groupC ["g"], ClauseOp.limitC 3] [ClauseOp.limitC 3, ClauseOp.groupC ["g"]]
      (List.Perm.swap (ClauseOp.limitC 3) (ClauseOp.groupC ["g"]) [])
      (by
        refine List.pairwise_cons.mpr ⟨?_, ?_⟩
        · intro b hb
          rw [List.mem_singleton.mp hb]
          decide
        · exact List.pairwise_singleton _ _)
      (table.init ["t"])

/-! ## Claim C2: copy-on-write independence of derived statements -/

theorem lookupW_append {σ : CStore} (τ : CStore) {i : Nat} (h : i < σ.length) :
    lookupW (σ ++ τ) i = lookupW σ i := by
  rw [lookupW, lookupW, List.getElem?_append_left h]

theorem lookupW_append_self (σ : CStore) (w : Where) :
    lookupW (σ ++ [w]) σ.length = w := by
  rw [lookupW, List.getElem?_append_right (Nat.le_refl _)]
  simp

theorem lookupW_set_ne (σ : CStore) (j i : Nat) (w : Where) (h : j ≠ i) :
    lookupW (σ.set j w) i = lookupW σ i := by
  rw [lookupW, lookupW, List.getElem?_set_ne h]

theorem deref_congr (σ σ2 : CStore) (t : TableObj)
    (hc : ∀ i, t.condRef = some i → lookupW σ2 i = lookupW σ i)
    (hh : ∀ i, t.havingRef = some i → lookupW σ2 i = lookupW σ i) :
    TableObj.deref σ2 t = TableObj.deref σ t := by
  rw [TableObj.deref, TableObj.deref]
  have h1 : t.condRef.map (lookupW σ2) = t.condRef.map (lookupW σ) := by
    rcases hcr : t.condRef with _ | i
    · rfl
    · simp [hc i hcr]
  have h2 : t.havingRef.map (lookupW σ2) = t.havingRef.map (lookupW σ) := by
    rcases hhr : t.havingRef with _ | j
    · rfl
    · simp [hh j hhr]
  rw [h1, h2]

theorem renderObj_congr (f : Nat) (σ σ2 : CStore) (t : TableObj)
    (hc : ∀ i, t.condRef = some i → lookupW σ2 i = lookupW σ i)
    (hh : ∀ i, t.havingRef = some i → lookupW σ2 i = lookupW σ i) :
    TableObj.render f σ2 t = TableObj.render f σ t := by
  rw [TableObj.render, TableObj.render, deref_congr σ σ2 t hc hh]

theorem whereObj_spec (σ : CStore) (t : TableObj) (c : Option String)
    (vs : List Val) (kw : List (String × KwVal)) (σ2 : CStore) (t2 : TableObj)
    (hpr : t.st.pristine = true)
    (h : TableObj.where_ σ t c vs kw = some (σ2, t2)) :
    σ.length ≤ σ2.length
  ∧ (∀ i, i < σ.length → lookupW σ2 i = lookupW σ i)
  ∧ (∃ j, t2.condRef = some j ∧ σ.length ≤ j ∧ j < σ2.length)
  ∧ (∀ j, t2.havingRef = some j → σ.length ≤ j ∧ j < σ2.length) := by
  rw [TableObj.where_, TableObj.clone_if, if_pos hpr, TableObj.copy] at h
  rcases hcr : t.condRef with _ | ic <;> rcases hhr : t.havingRef with _ | ih <;>
    rw [hcr, hhr] at h <;> simp only at h
  · -- condRef none, havingRef none
    cases hw : Where.init c vs kw with
    | none => rw [hw] at h; cases h
    | some w0 =>
      rw [hw, Option.map_some'] at h
      injection h with h
      injection h with h1 h2
      subst h1
      subst h2
      refine ⟨by simp, fun i hi => lookupW_append [w0] hi, ⟨σ.length, rfl, le_refl _, by simp⟩,
        fun j hj => by simp at hj⟩
  · -- condRef none, havingRef some ih
    cases hw : Where.init c vs kw with
    | none => rw [hw] at h; cases h
    | some w0 =>
      rw [hw, Option.map_some'] at h
      injection h with h
      injection h with h1 h2
      subst h1
      subst h2
      refine ⟨by simp, ?_, ?_, ?_⟩
      · intro i hi
        rw [List.append_assoc]
        exact lookupW_append _ hi
      · refine ⟨(σ ++ [lookupW σ ih]).length, rfl, by simp, by simp⟩
      · intro j hj
        injection hj with hj
        subst hj
        simp
  · -- condRef some ic, havingRef none
    cases hw : (lookupW (σ ++ [lookupW σ ic]) σ.length).and_ (.frag c vs kw) with
    | none => rw [hw] at h; cases h
    | some w1 =>
      rw [hw, Option.map_some'] at h
      injection h with h
      injection h with h1 h2
      subst h1
      subst h2
      refine ⟨by simp, ?_, ?_, ?_⟩
      · intro i hi
        rw [lookupW_set_ne _ _ _ _ (by omega)]
        exact lookupW_append _ hi
      · exact ⟨σ.length, rfl, le_refl _, by simp⟩
      · intro j hj
        simp at hj
  · -- condRef some ic, havingRef some ih
    cases hw : (lookupW (σ ++ [lookupW σ ic] ++
        [lookupW (σ ++ [lookupW σ ic]) ih]) σ.length).and_ (.frag c vs kw) with
    | none => rw [hw] at h; cases h
    | some w1 =>
      rw [hw, Option.map_some'] at h
      injection h with h
      injection h with h1 h2
      subst h1
      subst h2
      refine ⟨by simp, ?_, ?_, ?_⟩
      · intro i hi
        rw [lookupW_set_ne _ _ _ _ (by omega), List.append_assoc]
        exact lookupW_append _ hi
      · exact ⟨σ.length, rfl, le_refl _, by simp⟩
      · intro j hj
        injection hj with hj
        subst hj
        simp

theorem whereObj_fresh (σ : CStore) (t : TableObj) (c : Option String)
    (vs : List Val) (kw : List (String × KwVal)) (σ2 : CStore) (t2 : TableObj)
    (hpr : t.st.pristine = true) (hcn : t.condRef = none)
    (h : TableObj.where_ σ t c vs kw = some (σ2, t2)) :
    ∃ j w0, Where.init c vs kw = some w0 ∧ t2.condRef = some j ∧
      lookupW σ2 j = w0 := by
  rw [TableObj.where_, TableObj.clone_if, if_pos hpr, TableObj.copy] at h
  rcases hhr : t.havingRef with _ | ih <;> rw [hcn, hhr] at h <;> simp only at h
  · cases hw : Where.init c vs kw with
    | none => rw [hw] at h; cases h
    | some w0 =>
      rw [hw, Option.map_some'] at h
      injection h with h
      injection h with h1 h2
      subst h1
      subst h2
      exact ⟨σ.length, w0, rfl, rfl, lookupW_append_self σ w0⟩
  · cases hw : Where.init c vs kw with
    | none => rw [hw] at h; cases h
    | some w0 =>
      rw [hw, Option.map_some'] at h
      injection h with h
      injection h with h1 h2
      subst h1
      subst h2
      refine ⟨(σ ++ [lookupW σ ih]).length, w0, rfl, by simp, ?_⟩
      exact lookupW_append_self _ w0

theorem connectObj_spec (σ : CStore) (t : TableObj) (op : String) (arg : WhereArg)
    (σ2 : CStore) (t2 : TableObj)
    (h : TableObj.connect σ t op arg = some (σ2, t2)) :
    ∃ j, t.condRef = some j ∧ t2 = t ∧
      ∀ i, i ≠ j → lookupW σ2 i = lookupW σ i := by
  rw [TableObj.connect] at h
  rcases hcr : t.condRef with _ | j <;> rw [hcr] at h <;> simp only at h
  · cases h
  · cases hw : (lookupW σ j).connect op arg with
    | none => rw [hw] at h; cases h
    | some w1 =>
      rw [hw, Option.map_some'] at h
      injection h with h
      injection h with h1 h2
      subst h1
      subst h2
      exact ⟨j, rfl, rfl, fun i hi => lookupW_set_ne σ j i w1 (fun hc => hi hc.symm)⟩

theorem where_init_scalar (a : String) (v : Val) :
    Where.init none [] [(a, KwVal.scalar v)] = some ⟨a ++ "=?", [v]⟩ := rfl

/-- C2: from a pristine base statement `t`, deriving `s1 = t.where(a=va)`
and `s2 = t.where(b=vb)` leaves the base's rendering unchanged after each
derivation, leaves `s1`'s rendering unchanged by `s2`'s derivation, gives
the two derived statements condition cells distinct from each other and
from the base's, makes those cells (on a condition-free base) exactly the
independent fragments `a=?`/[va] and `b=?`/[vb] sharing no text or values,
and a later `and_`/`or_` on `s1` never alters `s2`'s or the base's
rendering: the copy-on-write copy deep-copies the nested condition
objects. -/
theorem claim_C2 (f : Nat) (σ : CStore) (t : TableObj) (a b : String)
    (va vb : Val) (σ1 σ2 : CStore) (s1 s2 : TableObj)
    (hpr : t.st.pristine = true)
    (hcr : ∀ i, t.condRef = some i → i < σ.length)
    (hhr : ∀ i, t.havingRef = some i → i < σ.length)
    (h1 : TableObj.where_ σ t none [] [(a, .scalar va)] = some (σ1, s1))
    (h2 : TableObj.where_ σ1 t none [] [(b, .scalar vb)] = some (σ2, s2)) :
    TableObj.render f σ1 t = TableObj.render f σ t
  ∧ TableObj.render f σ2 t = TableObj.render f σ t
  ∧ TableObj.render f σ2 s1 = TableObj.render f σ1 s1
  ∧ s1.condRef ≠ s2.condRef
  ∧ (∀ i j, t.condRef = some i → s1.condRef = some j → i ≠ j)
  ∧ (∀ i j, t.condRef = some i → s2.condRef = some j → i ≠ j)
  ∧ (t.condRef = none →
      (∃ i, s1.condRef = some i ∧ lookupW σ2 i = ⟨a ++ "=?", [va]⟩)
    ∧ (∃ j, s2.condRef = some j ∧ lookupW σ2 j = ⟨b ++ "=?", [vb]⟩))
  ∧ (∀ (op : String) (arg : WhereArg) (σ3 : CStore) (s1b : TableObj),
      TableObj.connect σ2 s1 op arg = some (σ3, s1b) →
      TableObj.render f σ3 s2 = TableObj.render f σ2 s2
    ∧ TableObj.render f σ3 t = TableObj.render f σ t) := by
  obtain ⟨hl1, hp1, ⟨j1, hj1, hj1l, hj1u⟩, hh1⟩ :=
    whereObj_spec σ t none [] [(a, .scalar va)] σ1 s1 hpr h1
  obtain ⟨hl2, hp2, ⟨j2, hj2, hj2l, hj2u⟩, hh2⟩ :=
    whereObj_spec σ1 t none [] [(b, .scalar vb)] σ2 s2 hpr h2
  have hbase : ∀ i, i < σ.length → lookupW σ2 i = lookupW σ i := fun i hi =>
    (hp2 i (lt_of_lt_of_le hi hl1)).trans (hp1 i hi)
  refine ⟨?_, ?_, ?_, ?_, ?_, ?_, ?_, ?_⟩
  · exact renderObj_congr f σ σ1 t
      (fun i hi => hp1 i (hcr i hi)) (fun i hi => hp1 i (hhr i hi))
  · exact renderObj_congr f σ σ2 t
      (fun i hi => hbase i (hcr i hi)) (fun i hi => hbase i (hhr i hi))
  · refine renderObj_congr f σ1 σ2 s1 ?_ ?_
    · intro i hi
      rw [hj1] at hi
      injection hi with hi
      subst hi
      exact hp2 j1 hj1u
    · intro i hi
      exact hp2 i (hh1 i hi).2
  · rw [hj1, hj2]
    intro hcon
    injection hcon with hcon
    omega
  · intro i j hti hs1
    rw [hj1] at hs1
    injection hs1 with hs1
    subst hs1
    have := hcr i hti
    omega
  · intro i j hti hs2
    rw [hj2] at hs2
    injection hs2 with hs2
    subst hs2
    have := hcr i hti
    have := hl1
    omega
  · intro hcn
    obtain ⟨j1f, w1, hw1i, hj1f, hl1f⟩ :=
      whereObj_fresh σ t none [] [(a, .scalar va)] σ1 s1 hpr hcn h1
    obtain ⟨j2f, w2, hw2i, hj2f, hl2f⟩ :=
      whereObj_fresh σ1 t none [] [(b, .scalar vb)] σ2 s2 hpr hcn h2
    rw [where_init_scalar] at hw1i hw2i
    injection hw1i with hw1i
    injection hw2i with hw2i
    have heq : j1f = j1 := Option.some.inj (hj1f.symm.trans hj1)
    subst heq
    refine ⟨⟨j1f, hj1f, ?_⟩, ⟨j2f, hj2f, ?_⟩⟩
    · rw [hp2 j1f hj1u, hl1f, hw1i]
    · rw [hl2f, hw2i]
  · intro op arg σ3 s1b hc
    obtain ⟨jc, hjc, -, hset⟩ := connectObj_spec σ2 s1 op arg σ3 s1b hc
    rw [hj1] at hjc
    injection hjc with hjc
    subst hjc
    constructor
    · refine renderObj_congr f σ2 σ3 s2 ?_ ?_
      · intro i hi
        rw [hj2] at hi
        injection hi with hi
        subst hi
        exact hset j2 (by omega)
      · intro i hi
        have := hh2 i hi
        exact hset i (by omega)
    · have hb : ∀ i, i < σ.length → lookupW σ3 i = lookupW σ i := by
        intro i hi
        rw [hset i (by omega), hbase i hi]
      exact renderObj_congr f σ σ3 t
        (fun i hi => hb i (hcr i hi)) (fun i hi => hb i (hhr i hi))

theorem claim_C2_witness :
    ((⟨(table.init ["t"]).setPristine false, some 0, none⟩ : TableObj).condRef ≠
     (⟨(table.init ["t"]).setPristine false, some 1, none⟩ : TableObj).condRef) :=
  (claim_C2 1 [] ⟨table.init ["t"], none, none⟩ "a" "b" (Val.vint 1) (Val.vint 2)
    [⟨"a" ++ "=?", [Val.vint 1]⟩]
    [⟨"a" ++ "=?", [Val.vint 1]⟩, ⟨"b" ++ "=?", [Val.vint 2]⟩]
    ⟨(table.init ["t"]).setPristine false, some 0, none⟩
    ⟨(table.init ["t"]).setPristine false, some 1, none⟩
    rfl (fun _ hi => nomatch hi) (fun _ hi => nomatch hi) rfl rfl).2.2.2.1

end Udbq
